import Mathlib

/-!
# MagicDjinn — verification of the inventory-allocation engine

Shallow embedding of the card-collection tracker's ownership ledger and the
card-movement handlers, translated from the Flask source:

* `app/models/inventory.py`   — the `Inventory` row (one OwnershipRecord)
* `app/blueprints/decks.py`   — `add_card`, `remove_card`, `move_card`,
  `delete_deck`, `_compute_color_identity`
* `app/blueprints/friends.py` — `transfer`
* `app/blueprints/collection.py` — `edit_card`
* `app/utils/card_service.py` — `parse_line`, `bulk_import_decklist`'s
  per-line box upsert, `_upsert_deck_row`

The database session is modelled as a list of `Inventory` records plus a list
of `Deck` rows; `Query.filter_by(...).first()` becomes `List.find?`,
`db.session.delete` removes by primary key, attribute assignment becomes a
by-id map.  Python ints are `Int`; SQLAlchemy identity-map aliasing (two
query results denoting the same row) is reflected by updating/deleting by
primary key, exactly as a commit would.
-/

namespace MagicDjinn

/-- The six-value condition scale of `app/models/inventory.py`. -/
inductive CardCondition where
  | NM | EX | GD | LP | PL | PO
deriving DecidableEq, Repr

/-- One `Inventory` row (`app/models/inventory.py`).  `current_deck_id = none`
means the card sits in the owner's Box.  Prices are carried opaquely (the
modelled operations never compute with them). -/
structure Inventory where
  id : Nat
  user_id : Nat
  card_scryfall_id : String
  quantity : Int
  is_foil : Bool
  condition : CardCondition
  purchase_price_usd : Option Int
  acquired_date : Nat
  notes : Option String
  current_deck_id : Option Nat
  is_sideboard : Bool
  is_commander : Bool
  physical_location : Option String
  is_proxy : Bool
deriving DecidableEq, Repr

/-- A `Deck` row, reduced to the fields the movement handlers touch. -/
structure Deck where
  id : Nat
  user_id : Nat
  color_identity : String
deriving DecidableEq, Repr

/-- The mutable store: all inventory rows and all decks. -/
structure St where
  invs : List Inventory
  decks : List Deck
deriving DecidableEq, Repr

/-- Typed failure of a single-record operation (HTTP error responses in the
source). -/
inductive MErr where
  | http404
  | invalidQty
  | insufficient
  | forbidden
  | badRequest
deriving DecidableEq, Repr

/-- Attribute assignment on the row with primary key `i`. -/
def updateById (l : List Inventory) (i : Nat) (f : Inventory → Inventory) :
    List Inventory :=
  l.map (fun r => if r.id = i then f r else r)

/-- `db.session.delete` of the row with primary key `i`. -/
def deleteById (l : List Inventory) (i : Nat) : List Inventory :=
  l.filter (fun r => r.id ≠ i)

/-- Primary key the database would hand to the next inserted row. -/
def freshId (l : List Inventory) : Nat :=
  (l.foldr (fun r m => max r.id m) 0) + 1

/-- Total number of physical cards in the ledger. -/
def totalQty (l : List Inventory) : Int :=
  l.foldr (fun r a => r.quantity + a) 0

/-- `_compute_color_identity` (decks.py:42-48): union the colour letters of
every card in the deck, rendered in the fixed order `WUBRG` with absent
colours omitted.  `cc` plays the `Card.color_identity` column (a string such
as `"WU"`); an empty string contributes nothing, like the falsy check in the
source. -/
def compute_color_identity (cc : String → String) (invs : List Inventory)
    (deckId : Nat) : String :=
  ⟨("WUBRG".toList).filter (fun c =>
    invs.any (fun i =>
      i.current_deck_id == some deckId && (cc i.card_scryfall_id).toList.contains c))⟩

/-- `deck.color_identity = ...` — writes the recomputed aggregate onto the
deck row when it exists (a missing deck is a silent no-op, mirroring
`Deck.query.get` + `if deck:`). -/
def setDeckColor (decks : List Deck) (d : Nat) (c : String) : List Deck :=
  decks.map (fun dk => if dk.id = d then { dk with color_identity := c } else dk)

/-- `delete_deck` (decks.py:414-430): the deck must exist and belong to the
acting user (`first_or_404`); every inventory row of the deck — whoever owns
it — has `current_deck_id` set to NULL by one bulk update, then the deck row
is deleted.  Nothing is merged and no inventory row is deleted. -/
def delete_deck (user deckId : Nat) (s : St) : Except MErr St :=
  match s.decks.find? (fun dk => dk.id == deckId && dk.user_id == user) with
  | none => .error .http404
  | some _ => .ok
      { invs := s.invs.map (fun r =>
          if r.current_deck_id == some deckId then
            { r with current_deck_id := none }
          else r)
        decks := s.decks.filter (fun dk => dk.id ≠ deckId) }

/-- A freshly inserted `Inventory` row with the column defaults of the model
(`is_sideboard`/`is_commander`/`is_proxy` false, no notes, no price). -/
def newInvRow (idv user : Nat) (card : String) (qty : Int) (foil : Bool)
    (cond : CardCondition) (deck : Option Nat) (loc : Option String) : Inventory :=
  { id := idv, user_id := user, card_scryfall_id := card, quantity := qty,
    is_foil := foil, condition := cond, purchase_price_usd := none,
    acquired_date := 0, notes := none, current_deck_id := deck,
    is_sideboard := false, is_commander := false, physical_location := loc,
    is_proxy := false }

/-- `add_card` (decks.py:453-517): move `qty` units of a Box row into a deck.
The destination row is looked up by user, card, foil flag and deck — exactly
the `filter_by` of lines 483-488 (note: no `is_sideboard` in the filter).
A full move with no destination merges by rewriting the Box row's
`current_deck_id` in place; a partial move splits off a new row. -/
def add_card (cc : String → String) (user deckId invId : Nat) (qty : Int)
    (s : St) : Except MErr St :=
  match s.decks.find? (fun dk => dk.id == deckId) with
  | none => .error .http404
  | some _ =>
    if qty < 1 then .error .invalidQty
    else
      match s.invs.find? (fun r =>
          r.id == invId && r.user_id == user && r.current_deck_id == none) with
      | none => .error .http404
      | some box_inv =>
        if box_inv.quantity < qty then .error .insufficient
        else
          let deck_inv? := s.invs.find? (fun r =>
            r.user_id == user && r.card_scryfall_id == box_inv.card_scryfall_id &&
            r.is_foil == box_inv.is_foil && r.current_deck_id == some deckId)
          let invs' :=
            if qty = box_inv.quantity then
              match deck_inv? with
              | some dinv =>
                  deleteById (updateById s.invs dinv.id
                    (fun r => { r with quantity := r.quantity + qty })) box_inv.id
              | none =>
                  updateById s.invs box_inv.id
                    (fun r => { r with current_deck_id := some deckId })
            else
              let base := updateById s.invs box_inv.id
                (fun r => { r with quantity := r.quantity - qty })
              match deck_inv? with
              | some dinv => updateById base dinv.id
                  (fun r => { r with quantity := r.quantity + qty })
              | none => base ++ [newInvRow (freshId s.invs) user
                  box_inv.card_scryfall_id qty box_inv.is_foil box_inv.condition
                  (some deckId) none]
          .ok { invs := invs',
                decks := setDeckColor s.decks deckId
                  (compute_color_identity cc invs' deckId) }

/-- `remove_card` (decks.py:525-584): return `qty` units of a deck row to the
Box.  A missing/invalid/`< 1` requested quantity falls back to the whole row,
and the request is then clamped with `min` (line 547) — it is never rejected
for being too large. -/
def remove_card (cc : String → String) (user deckId invId : Nat)
    (qtyReq : Option Int) (s : St) : Except MErr St :=
  match s.decks.find? (fun dk => dk.id == deckId) with
  | none => .error .http404
  | some _ =>
    match s.invs.find? (fun r =>
        r.id == invId && r.user_id == user && r.current_deck_id == some deckId) with
    | none => .error .http404
    | some deck_inv =>
      let qty0 : Int := match qtyReq with
        | some q => if q < 1 then deck_inv.quantity else q
        | none => deck_inv.quantity
      let qty := min qty0 deck_inv.quantity
      let box_inv? := s.invs.find? (fun r =>
        r.user_id == user && r.card_scryfall_id == deck_inv.card_scryfall_id &&
        r.is_foil == deck_inv.is_foil && r.current_deck_id == none)
      let invs' :=
        if deck_inv.quantity ≤ qty then
          match box_inv? with
          | some binv =>
              deleteById (updateById s.invs binv.id
                (fun r => { r with quantity := r.quantity + deck_inv.quantity }))
                deck_inv.id
          | none =>
              updateById s.invs deck_inv.id
                (fun r => { r with current_deck_id := none })
        else
          let base := updateById s.invs deck_inv.id
            (fun r => { r with quantity := r.quantity - qty })
          match box_inv? with
          | some binv => updateById base binv.id
              (fun r => { r with quantity := r.quantity + qty })
          | none => base ++ [newInvRow (freshId s.invs) user
              deck_inv.card_scryfall_id qty deck_inv.is_foil deck_inv.condition
              none none]
      .ok { invs := invs',
            decks := setDeckColor s.decks deckId
              (compute_color_identity cc invs' deckId) }

/-- `move_card` (decks.py:592-664): move a row anywhere (deck→deck,
deck→Box, Box→deck).  A falsy `target_deck_id` means the Box; the requested
quantity is clamped by `max(1, min(qty, src.quantity))` (line 617).  The pair
returned by the allocation step carries the value `src_inv.current_deck_id`
holds *after* the mutation, because line 649 reads the attribute again for
the colour recompute. -/
def move_card_core (cc : String → String) (user : Nat) (src : Inventory)
    (target : Option Nat) (qtyReq : Option Int) (s : St) : St :=
  let q0 : Int := qtyReq.getD src.quantity
  let qty : Int := max 1 (min q0 src.quantity)
  let existing? := s.invs.find? (fun r =>
    r.user_id == user && r.card_scryfall_id == src.card_scryfall_id &&
    r.is_foil == src.is_foil && r.current_deck_id == target)
  let res :=
    if src.quantity ≤ qty then
      match existing? with
      | some ex =>
          (deleteById (updateById s.invs ex.id
            (fun r => { r with quantity := r.quantity + src.quantity })) src.id,
           src.current_deck_id)
      | none =>
          (updateById s.invs src.id
            (fun r => { r with current_deck_id := target }), target)
    else
      let base := updateById s.invs src.id
        (fun r => { r with quantity := r.quantity - qty })
      match existing? with
      | some ex => (updateById base ex.id
          (fun r => { r with quantity := r.quantity + qty }), src.current_deck_id)
      | none => (base ++ [newInvRow (freshId s.invs) user src.card_scryfall_id
          qty src.is_foil src.condition target none], src.current_deck_id)
  let invs' := res.1
  let decks1 := match res.2 with
    | some d =>
        if d ≠ 0 then setDeckColor s.decks d (compute_color_identity cc invs' d)
        else s.decks
    | none => s.decks
  let decks2 := match target with
    | some t => setDeckColor decks1 t (compute_color_identity cc invs' t)
    | none => decks1
  { invs := invs', decks := decks2 }

/-- `move_card`'s request handling: resolve the source row and the (possibly
falsy) target deck, then run the allocation core above. -/
def move_card (cc : String → String) (user invId : Nat)
    (targetReq : Option Nat) (qtyReq : Option Int) (s : St) : Except MErr St :=
  match s.invs.find? (fun r => r.id == invId && r.user_id == user) with
  | none => .error .http404
  | some src =>
    match targetReq with
    | some t =>
        if t = 0 then .ok (move_card_core cc user src none qtyReq s)
        else match s.decks.find? (fun dk => dk.id == t) with
          | none => .error .http404
          | some _ => .ok (move_card_core cc user src (some t) qtyReq s)
    | none => .ok (move_card_core cc user src none qtyReq s)

/-- The allocation step of `transfer` (friends.py:165-208) after the source
row and destination deck are resolved: clamp the request, find the acting
user's row at the destination, remove from the friend's Box (deleting the
row on a full take), then merge into the destination row or insert a fresh
row, finally recomputing the destination deck's colours. -/
def transfer_core (cc : String → String) (actor : Nat) (src : Inventory)
    (destDeck : Option Nat) (qtyIn : Int) (s : St) : St :=
  let qty := min qtyIn src.quantity
  let existing? := s.invs.find? (fun r =>
    r.user_id == actor && r.card_scryfall_id == src.card_scryfall_id &&
    r.is_foil == src.is_foil && r.current_deck_id == destDeck)
  let removed :=
    if src.quantity ≤ qty then deleteById s.invs src.id
    else updateById s.invs src.id
      (fun r => { r with quantity := r.quantity - qty })
  let invs' :=
    match existing? with
    | some ex => updateById removed ex.id
        (fun r => { r with quantity := r.quantity + qty })
    | none => removed ++ [newInvRow (freshId s.invs) actor
        src.card_scryfall_id qty src.is_foil src.condition destDeck none]
  let decks' := match destDeck with
    | some t => setDeckColor s.decks t (compute_color_identity cc invs' t)
    | none => s.decks
  { invs := invs', decks := decks' }

/-- `transfer` (friends.py:142-228): take units from a friend's Box row into
the acting user's Box or one of their decks.  `can_transfer_card`
(utils/friends.py:27-40) requires a Box row, a distinct owner, and view
permission (`canView` abstracts the friend-group/admin check).  The request
is clamped by `min` (line 165); a full move *deletes* the source row and, if
no destination row matches, inserts a brand-new row (lines 187-204). -/
def transfer (cc : String → String) (actor invId : Nat) (deckReq : Option Nat)
    (qtyIn : Int) (canView : Bool) (s : St) : Except MErr St :=
  if qtyIn < 1 then .error .invalidQty
  else
    match s.invs.find? (fun r => r.id == invId && r.current_deck_id == none) with
    | none => .error .http404
    | some src =>
      if actor == src.user_id then .error .forbidden
      else if !canView then .error .forbidden
      else
        match deckReq with
        | some t =>
            if t = 0 then .ok (transfer_core cc actor src none qtyIn s)
            else match s.decks.find? (fun dk => dk.id == t && dk.user_id == actor) with
              | none => .error .http404
              | some _ => .ok (transfer_core cc actor src (some t) qtyIn s)
        | none => .ok (transfer_core cc actor src none qtyIn s)

/-- Python `\s` / `str.strip()` whitespace, restricted to ASCII (the model's
character domain). -/
def isPyWs (c : Char) : Bool :=
  c = ' ' || c = '\t' || c = '\n' || c = '\r' || c = '\x0b' || c = '\x0c'

/-- Drop leading whitespace characters. -/
def dropWsL : List Char → List Char
  | [] => []
  | c :: cs => if isPyWs c then dropWsL cs else c :: cs

/-- Python `str.strip()` on the character list. -/
def pyStripL (l : List Char) : List Char :=
  (dropWsL (dropWsL l).reverse).reverse

/-- Python `str.strip()`. -/
def pyStrip (s : String) : String := ⟨pyStripL s.toList⟩

/-- `loc = physical_location.strip() if physical_location else None`
(card_service.py:315/623). -/
def mkLoc (hint : String) : Option String :=
  if hint = "" then none else some (pyStrip hint)

/-- Python truthiness of the optional location string (both `None` and `""`
are falsy). -/
def locTruthy : Option String → Bool
  | none => false
  | some st => st ≠ ""

/-- One resolved line of `bulk_import_decklist` / `stream_box_import`
(card_service.py:307-332 and 623-645): merge into the Box row with the same
user, card and foil flag, or insert a new row.  The location hint is written
onto a *new* row, and also onto an existing row whose location is falsy
(line 319: `if loc and not existing.physical_location`). -/
def box_import_line (user : Nat) (sid : String) (qty : Int) (isFoil : Bool)
    (loc : Option String) (invs : List Inventory) : List Inventory :=
  match invs.find? (fun r => r.user_id == user && r.card_scryfall_id == sid &&
      r.is_foil == isFoil && r.current_deck_id == none) with
  | some e =>
      updateById invs e.id (fun r =>
        let r1 := { r with quantity := r.quantity + qty }
        if locTruthy loc && !locTruthy r.physical_location then
          { r1 with physical_location := loc }
        else r1)
  | none => invs ++ [newInvRow (freshId invs) user sid qty isFoil .NM none loc]

/-- The ledger part of `bulk_import_decklist` (card_service.py:259-346) over
the lines whose card resolution succeeded: each resolved `(scryfall_id,
quantity, is_foil)` triple is upserted into the Box in order, every line
reusing the same location hint. -/
def bulk_import_box (user : Nat) (lines : List (String × Int × Bool))
    (hint : String) (invs : List Inventory) : List Inventory :=
  lines.foldl (fun acc pl => box_import_line user pl.1 pl.2.1 pl.2.2 (mkLoc hint) acc)
    invs

/-- `_upsert_deck_row` (card_service.py:552-579): the only merge lookup that
filters on all five identity-key components, `is_sideboard` included. -/
def upsert_deck_row (user deckId : Nat) (sid : String) (qty : Int)
    (isFoil isSb : Bool) (invs : List Inventory) : List Inventory :=
  match invs.find? (fun r => r.user_id == user && r.card_scryfall_id == sid &&
      r.is_foil == isFoil && r.current_deck_id == some deckId &&
      r.is_sideboard == isSb) with
  | some e => updateById invs e.id (fun r => { r with quantity := r.quantity + qty })
  | none => invs ++
      [{ newInvRow (freshId invs) user sid qty isFoil .NM (some deckId) none with
         is_sideboard := isSb }]

/-- `str(x)[:n]` on a Python string. -/
def pyStrTake (n : Nat) (st : String) : String := ⟨st.toList.take n⟩

/-- The JSON body of `edit_card` (collection.py:203-315) after the three
validation steps.  `condition = none` stands for an invalid enum name;
optional fields are `none` when the key is absent from the body;
`physical_location = some none` means the key is present with a falsy
value. -/
structure EditReq where
  quantity : Int
  condition : Option CardCondition
  purchase : Option Int
  new_sid : Option String
  is_foil : Option Bool
  is_proxy : Bool
  notes : String
  physical_location : Option (Option String)
  is_sideboard : Option Bool
  is_commander : Option Bool
deriving DecidableEq, Repr

/-- The common field update of `edit_card` (collection.py:296-311) on one
row: quantity, foil (default **False** when the key is absent), proxy,
condition, price, notes, optional location, and the deck-scoped flags only
when the row sits in a deck. -/
def editFields (req : EditReq) (cond : CardCondition) (r : Inventory) : Inventory :=
  let r1 :=
    { r with
      quantity := req.quantity,
      is_foil := req.is_foil.getD false,
      is_proxy := req.is_proxy,
      condition := cond,
      purchase_price_usd := req.purchase,
      notes := some (pyStrTake 500 req.notes) }
  let r2 := match req.physical_location with
    | none => r1
    | some v =>
        let sv := match v with
          | none => ""
          | some st => st
        let tv := pyStrTake 200 sv
        { r1 with physical_location := if tv = "" then none else some tv }
  if r2.current_deck_id.isSome then
    { r2 with
      is_sideboard := req.is_sideboard.getD r.is_sideboard,
      is_commander := req.is_commander.getD r.is_commander }
  else r2

/-- The common field update applied to the row with id `invId`. -/
def edit_apply_fields (req : EditReq) (cond : CardCondition) (invId : Nat)
    (invs : List Inventory) : List Inventory :=
  updateById invs invId (editFields req cond)

/-- `edit_card` (collection.py:203-315).  After validating quantity,
condition and price, an optional printing switch is handled first: with a
single copy the row is merged into a duplicate (and deleted) or its
`card_scryfall_id` rewritten in place; with several copies exactly one copy
is split off to the new printing (merged into the duplicate or inserted as a
new row) and only metadata is updated on the original row (early return).
Without a printing switch the common field update runs.  `cardExists` stands
for `get_or_create_card(scryfall_id=...)` succeeding. -/
def edit_card (cardExists : String → Bool) (user invId : Nat) (req : EditReq)
    (s : St) : Except MErr St :=
  match s.invs.find? (fun r => r.id == invId && r.user_id == user) with
  | none => .error .http404
  | some inv =>
    if req.quantity < 1 ∨ 99 < req.quantity then .error .badRequest
    else match req.condition with
    | none => .error .badRequest
    | some cond =>
      if (match req.purchase with | some p => decide (p < 0) | none => false) then
        .error .badRequest
      else
        match req.new_sid with
        | some nsid =>
          if nsid ≠ inv.card_scryfall_id then
            if !cardExists nsid then .error .badRequest
            else
              let is_foil_new := req.is_foil.getD inv.is_foil
              let dup? := s.invs.find? (fun r => r.id != inv.id &&
                r.user_id == user && r.card_scryfall_id == nsid &&
                r.is_foil == is_foil_new && r.current_deck_id == inv.current_deck_id)
              if inv.quantity = 1 then
                match dup? with
                | some dup =>
                    let invsA := deleteById (updateById s.invs dup.id
                      (fun r => { r with quantity := r.quantity + 1 })) inv.id
                    .ok { s with invs := invsA }
                | none =>
                    let base := updateById s.invs inv.id
                      (fun r => { r with card_scryfall_id := nsid })
                    .ok { s with invs := edit_apply_fields req cond invId base }
              else
                let base := updateById s.invs inv.id
                  (fun r => { r with quantity := r.quantity - 1 })
                let invs' := match dup? with
                  | some dup => updateById base dup.id
                      (fun r => { r with quantity := r.quantity + 1 })
                  | none => base ++ [newInvRow (freshId s.invs) user nsid 1
                      is_foil_new inv.condition inv.current_deck_id none]
                let invs'' := updateById invs' inv.id (fun r =>
                  { r with
                    condition := cond,
                    purchase_price_usd := req.purchase,
                    notes := some (pyStrTake 500 req.notes) })
                .ok { s with invs := invs'' }
          else
            .ok { s with invs := edit_apply_fields req cond invId s.invs }
        | none => .ok { s with invs := edit_apply_fields req cond invId s.invs }

/-- The five-component identity key of §3 of the spec:
`(user, printing_id, foil, deck_id, sideboard_flag)`. -/
def invKey (r : Inventory) : Nat × String × Bool × Option Nat × Bool :=
  (r.user_id, r.card_scryfall_id, r.is_foil, r.current_deck_id, r.is_sideboard)

/-- Executable pairwise identity-key uniqueness. -/
def uniqueKeysB : List Inventory → Bool
  | [] => true
  | r :: t => t.all (fun x => invKey x != invKey r) && uniqueKeysB t

/-- Identity-key uniqueness (Invariant I1) as a proposition. -/
abbrev UniqueKeys (l : List Inventory) : Prop :=
  l.Pairwise (fun a b => invKey a ≠ invKey b)

/-- No two rows share a primary key. -/
abbrev IdsNodup (l : List Inventory) : Prop :=
  (l.map (fun r => r.id)).Nodup

/-- One ledger-mutating request: the four movement handlers plus the
two import upserts (one resolved line each). -/
inductive MoveOp where
  | add (user deckId invId : Nat) (qty : Int)
  | remove (user deckId invId : Nat) (qtyReq : Option Int)
  | move (user invId : Nat) (targetReq : Option Nat) (qtyReq : Option Int)
  | xfer (actor invId : Nat) (deckReq : Option Nat) (qtyIn : Int) (canView : Bool)
  | importBox (user : Nat) (sid : String) (qty : Int) (isFoil : Bool)
      (loc : Option String)
  | importDeck (user deckId : Nat) (sid : String) (qty : Int) (isFoil isSb : Bool)
deriving DecidableEq, Repr

/-- Run one request against the store; a rejected request (HTTP error
response) leaves the store unchanged, exactly as the handlers return before
any write. -/
def applyOp (cc : String → String) (op : MoveOp) (s : St) : St :=
  match op with
  | .add u d i q =>
      match add_card cc u d i q s with
      | .ok s' => s'
      | .error _ => s
  | .remove u d i q =>
      match remove_card cc u d i q s with
      | .ok s' => s'
      | .error _ => s
  | .move u i t q =>
      match move_card cc u i t q s with
      | .ok s' => s'
      | .error _ => s
  | .xfer a i d q v =>
      match transfer cc a i d q v s with
      | .ok s' => s'
      | .error _ => s
  | .importBox u sid q fo loc =>
      { s with invs := box_import_line u sid q fo loc s.invs }
  | .importDeck u d sid q fo sb =>
      { s with invs := upsert_deck_row u d sid q fo sb s.invs }

/-- Every quantity filtered to one location key `(user, card, foil, deck)` —
the four components all movement lookups share. -/
def matchesLoc (u : Nat) (sid : String) (fo : Bool) (dk : Option Nat)
    (r : Inventory) : Bool :=
  r.user_id == u && r.card_scryfall_id == sid && r.is_foil == fo &&
    r.current_deck_id == dk

/-- Contribution of one row to a location total. -/
def contrib (u : Nat) (sid : String) (fo : Bool) (dk : Option Nat)
    (r : Inventory) : Int :=
  if matchesLoc u sid fo dk r then r.quantity else 0

/-- Units the ledger holds at the location key `(u, sid, fo, dk)`. -/
def locQty (l : List Inventory) (u : Nat) (sid : String) (fo : Bool)
    (dk : Option Nat) : Int :=
  l.foldr (fun r a => contrib u sid fo dk r + a) 0

-- ————————————————————————————————————————————————————————————————————————
-- Line tokenizer (card_service.py:65-149)
-- ————————————————————————————————————————————————————————————————————————

/-- Regex `\w` on the ASCII range, for the `\b` word boundaries of
`_FOIL_PATTERNS`. -/
def isWordChar (c : Char) : Bool :=
  (65 ≤ c.toNat && c.toNat ≤ 90) || (97 ≤ c.toNat && c.toNat ≤ 122) ||
    (48 ≤ c.toNat && c.toNat ≤ 57) || c = '_'

/-- `[A-Za-z0-9]`. -/
def isAlnum (c : Char) : Bool :=
  (65 ≤ c.toNat && c.toNat ≤ 90) || (97 ≤ c.toNat && c.toNat ≤ 122) ||
    (48 ≤ c.toNat && c.toNat ≤ 57)

/-- `[A-Z0-9]`. -/
def isUpperAlnum (c : Char) : Bool :=
  (65 ≤ c.toNat && c.toNat ≤ 90) || (48 ≤ c.toNat && c.toNat ≤ 57)

/-- `[0-9]` (regex `\d` on ASCII input). -/
def isDigitCh (c : Char) : Bool := 48 ≤ c.toNat && c.toNat ≤ 57

/-- Match one character with `p` at the head, then continue with `k`:
the building block for the literal alternatives of the regexes. -/
def headIs (p : Char → Bool) (k : List Char → Bool) : List Char → Bool
  | [] => false
  | c :: t => p c && k t

/-- The characters `f`, `o`, `i`, `l` accept both cases under
`re.IGNORECASE`. -/
def chF (c : Char) : Bool := c = 'f' || c = 'F'

def chO (c : Char) : Bool := c = 'o' || c = 'O'

def chI (c : Char) : Bool := c = 'i' || c = 'I'

def chL (c : Char) : Bool := c = 'l' || c = 'L'

/-- The literal `foil` (case-insensitive) at the head of the list, then
continuation `k`. -/
def spellsFoil (k : List Char → Bool) : List Char → Bool :=
  headIs chF (headIs chO (headIs chI (headIs chL k)))

/-- `foil` (case-insensitive) at the head, any continuation. -/
def spellsFoilAny : List Char → Bool := spellsFoil (fun _ => true)

/-- Alternative `\*[Ff]\*` of `_FOIL_PATTERNS`. -/
def isStarF : List Char → Bool :=
  headIs (fun c => c = '*') (headIs chF (headIs (fun c => c = '*') (fun _ => true)))

/-- Alternatives `\(foil\)`, `\[foil\]`, `<foil>` with delimiters `o`/`e`. -/
def isBrFoil (o e : Char) : List Char → Bool :=
  headIs (fun c => c = o) (spellsFoil (headIs (fun c => c = e) (fun _ => true)))

/-- Alternative `\+foil`. -/
def isPlusFoil : List Char → Bool :=
  headIs (fun c => c = '+') (spellsFoil (fun _ => true))

/-- The closing `\b` after `foil`: end of input or a non-word character. -/
def bdryAfter : List Char → Bool
  | [] => true
  | c :: _ => !isWordChar c

/-- Alternative `\bfoil\b`; `prevW` says whether the character before the
current position is a word character (`false` at the start of the string). -/
def isBareFoil (prevW : Bool) (l : List Char) : Bool :=
  !prevW && spellsFoil bdryAfter l

/-- `_FOIL_PATTERNS` (card_service.py:70-78) tried at one position: the
length of the first alternative that matches, in the pattern's order. -/
def foilMatchAt (prevW : Bool) (l : List Char) : Option Nat :=
  if isStarF l then some 3
  else if isBrFoil '(' ')' l then some 6
  else if isBrFoil '[' ']' l then some 6
  else if isBrFoil '<' '>' l then some 6
  else if isPlusFoil l then some 5
  else if isBareFoil prevW l then some 4
  else none

/-- `bool(_FOIL_PATTERNS.search(line))` (card_service.py:116): does some
alternative match at some position?  `prevW` is the `\b` context. -/
def foilSearchAux (prevW : Bool) : List Char → Bool
  | [] => false
  | c :: cs => (foilMatchAt prevW (c :: cs)).isSome || foilSearchAux (isWordChar c) cs

def foilSearch (l : List Char) : Bool := foilSearchAux false l

/-- `_FOIL_PATTERNS.sub("", line)` (card_service.py:117): delete every
non-overlapping match, scanning left to right.  `skip` counts characters of
the current match still to delete, so that the next search resumes after it
with the last matched character as the `\b` context. -/
def foilSubAux (prevW : Bool) (skip : Nat) : List Char → List Char
  | [] => []
  | c :: cs =>
    match skip with
    | n + 1 => foilSubAux (isWordChar c) n cs
    | 0 =>
      match foilMatchAt prevW (c :: cs) with
      | some n => foilSubAux (isWordChar c) (n - 1) cs
      | none => c :: foilSubAux (isWordChar c) 0 cs

def foilSub (l : List Char) : List Char := foilSubAux false 0 l

/-- Case-insensitive ASCII lowering, for `re.IGNORECASE` literal prefixes. -/
def lcC (c : Char) : Char :=
  if 65 ≤ c.toNat ∧ c.toNat ≤ 90 then Char.ofNat (c.toNat + 32) else c

/-- `str.upper()` on one ASCII character (for `set_code.upper()`). -/
def ucC (c : Char) : Char :=
  if 97 ≤ c.toNat ∧ c.toNat ≤ 122 then Char.ofNat (c.toNat - 32) else c

/-- Case-insensitive literal prefix test. -/
def startsWithCI : List Char → List Char → Bool
  | [], _ => true
  | _ :: _, [] => false
  | p :: ps, c :: cs => (lcC c = lcC p) && startsWithCI ps cs

/-- `_SKIP_RE.match(line)` (card_service.py:82):
`^\s*(//|#|--|SB:|Sideboard|Commander|Companion|Deck).*$`, IGNORECASE. -/
def isSkipLine (l : List Char) : Bool :=
  let t := dropWsL l
  startsWithCI ('/' :: '/' :: []) t || startsWithCI ('#' :: []) t ||
    startsWithCI ('-' :: '-' :: []) t ||
    startsWithCI ('s' :: 'b' :: ':' :: []) t ||
    startsWithCI ('s' :: 'i' :: 'd' :: 'e' :: 'b' :: 'o' :: 'a' :: 'r' :: 'd' :: []) t ||
    startsWithCI ('c' :: 'o' :: 'm' :: 'm' :: 'a' :: 'n' :: 'd' :: 'e' :: 'r' :: []) t ||
    startsWithCI ('c' :: 'o' :: 'm' :: 'p' :: 'a' :: 'n' :: 'i' :: 'o' :: 'n' :: []) t ||
    startsWithCI ('d' :: 'e' :: 'c' :: 'k' :: []) t

/-- Greedy `\d+` span. -/
def spanDigits : List Char → List Char × List Char
  | [] => ([], [])
  | c :: cs =>
    if isDigitCh c then
      ((spanDigits cs).1.cons c, (spanDigits cs).2)
    else ([], c :: cs)

/-- `\s+` at the head: one required whitespace character, then the greedy
rest of the run (nothing follows `\s+` in `_QTY_RE`, so greedy is final). -/
def wsPlus : List Char → Option (List Char)
  | [] => none
  | c :: cs => if isPyWs c then some (dropWsL cs) else none

/-- `(\d+)[xX]?\s+` at the current position, with the regex backtracking on
the optional trailing `x`.  `\d+` never backtracks usefully (a digit matches
neither `[xX]` nor `\s`), so the greedy span is exact. -/
def qtyCore (l : List Char) : Option (List Char × List Char) :=
  match spanDigits l with
  | ([], _) => none
  | (d :: ds, r) =>
    match r with
    | [] => none
    | c :: r2 =>
      if c = 'x' || c = 'X' then
        match wsPlus r2 with
        | some rest => some (d :: ds, rest)
        | none => (wsPlus r).map (fun rest => (d :: ds, rest))
      else (wsPlus r).map (fun rest => (d :: ds, rest))

/-- `_QTY_RE.match(line)` (card_service.py:89): `^[xX]?(\d+)[xX]?\s+`,
returning the digit group and the text after the match. -/
def qtyMatch (l : List Char) : Option (List Char × List Char) :=
  match l with
  | [] => none
  | c :: cs =>
    if c = 'x' || c = 'X' then
      match qtyCore cs with
      | some p => some p
      | none => qtyCore l
    else qtyCore l

/-- Python `int()` on the captured digit group. -/
def digitsToNat (l : List Char) : Nat :=
  l.foldl (fun n c => 10 * n + (c.toNat - 48)) 0

/-- Greedy `[A-Za-z0-9]+` span. -/
def spanAlnum : List Char → List Char × List Char
  | [] => ([], [])
  | c :: cs =>
    if isAlnum c then
      ((spanAlnum cs).1.cons c, (spanAlnum cs).2)
    else ([], c :: cs)

/-- Greedy `[A-Za-z0-9-]*` span. -/
def spanCollTail : List Char → List Char
  | [] => []
  | c :: cs => if isAlnum c || c = '-' then c :: spanCollTail cs else []

/-- The optional `(?:\s+([A-Za-z0-9][A-Za-z0-9-]*))?` group of `_SET_RE`:
`\s+` is greedy, so the collector token must start right after the
whitespace run or the whole group fails. -/
def collAfter : List Char → Option (List Char)
  | [] => none
  | c :: cs =>
    if isPyWs c then
      match dropWsL cs with
      | [] => none
      | d :: ds => if isAlnum d then some (d :: spanCollTail ds) else none
    else none

/-- `_SET_RE` (card_service.py:65) tried at one position:
`\(([A-Za-z0-9]{2,6})\)` then the optional collector group.  `{2,6}` with
the mandatory `\)` after it matches exactly when the maximal alphanumeric
run after `(` has length 2 to 6 and is followed by `)`. -/
def setMatchAt (l : List Char) : Option (List Char × Option (List Char)) :=
  match l with
  | [] => none
  | c :: cs =>
    if c = '(' then
      match spanAlnum cs with
      | (run, r) =>
        if 2 ≤ run.length && run.length ≤ 6 then
          match r with
          | [] => none
          | d :: r2 => if d = ')' then some (run, collAfter r2) else none
        else none
    else none

/-- `_SET_RE.search(rest)` (card_service.py:133): leftmost match, returned
as (text before the match, set group, optional collector group). -/
def setSearch : List Char → Option (List Char × List Char × Option (List Char))
  | [] => none
  | c :: cs =>
    match setMatchAt (c :: cs) with
    | some (st, co) => some ([], st, co)
    | none =>
      match setSearch cs with
      | some (pre, st, co) => some (c :: pre, st, co)
      | none => none

/-- One character of Python `strip(chars)` with the two quote characters
(U+0022 and U+0027). -/
def isQuoteCh (c : Char) : Bool := c.toNat = 34 || c.toNat = 39

def dropQuotesL : List Char → List Char
  | [] => []
  | c :: cs => if isQuoteCh c then dropQuotesL cs else c :: cs

/-- Python `str.strip` of the two quote characters (card_service.py:139). -/
def stripQuotes (l : List Char) : List Char :=
  (dropQuotesL (dropQuotesL l).reverse).reverse

/-- Result of parsing one line (card_service.py:34-42); text as character
lists, `raw` is the stripped original line. -/
structure ParsedLine where
  quantity : Nat
  name : List Char
  set_code : Option (List Char)
  collector_number : Option (List Char)
  is_foil : Bool
  is_sideboard : Bool
  raw : List Char
deriving DecidableEq, Repr

/-- `parse_line` (card_service.py:91-149). -/
def parse_line (raw : List Char) : Option ParsedLine :=
  let line := pyStripL raw
  if line = [] then none
  else if isSkipLine line then none
  else
    let is_foil := foilSearch line
    let line2 := pyStripL (foilSub line)
    match qtyMatch line2 with
    | none => none
    | some (ds, rest) =>
      let quantity := digitsToNat ds
      if quantity < 1 || 99 < quantity then none
      else
        match setSearch rest with
        | some (pre, st, co) =>
          let name := stripQuotes (pyStripL (pyStripL pre))
          if name = [] then none
          else some ⟨quantity, name, some (st.map ucC), co, is_foil, false, line⟩
        | none =>
          let name := stripQuotes (pyStripL rest)
          if name = [] then none
          else some ⟨quantity, name, none, none, is_foil, false, line⟩

-- ————————————————————————————————————————————————————————————————————————
-- The canonical rendering of §8 and its validity conditions
-- ————————————————————————————————————————————————————————————————————————

/-- Decimal digit character. -/
def digitCh (n : Nat) : Char := Char.ofNat (48 + n)

/-- The canonical renderer's `{qty}` for quantities in `[1, 99]`. -/
def qtyRepr (q : Nat) : List Char :=
  if q < 10 then [digitCh q] else [digitCh (q / 10), digitCh (q % 10)]

/-- The canonical foil marker `" *F*"`. -/
def markerL : List Char := ' ' :: '*' :: 'F' :: '*' :: []

/-- The §8 canonical rendering `"{qty} {name} ({SET}) {collector}{foil-marker}"`,
with the set, collector and foil parts omitted when absent. -/
def renderLine (q : Nat) (name : List Char) (st : Option (List Char))
    (co : Option (List Char)) (foil : Bool) : List Char :=
  qtyRepr q ++ ' ' :: name ++
    (match st with
     | some s =>
       ' ' :: '(' :: (s ++ ')' :: (match co with | some cl => ' ' :: cl | none => []))
     | none => []) ++
    (if foil then markerL else [])

/-- No position of `l` starts a case-insensitive `foil` within `l`: the
"does not contain the word foil" validity condition on a field. -/
def noFoilCI : List Char → Bool
  | [] => true
  | c :: cs => !spellsFoilAny (c :: cs) && noFoilCI cs

/-- Characters no `_FOIL_PATTERNS` alternative can start with. -/
def neverStarts (c : Char) : Bool :=
  !(c = '*' || c = '(' || c = '[' || c = '<' || c = '+' || chF c)

/-- The letters of `foil` in either case. -/
def isFoilLetter (c : Char) : Bool := chF c || chO c || chI c || chL c

/-- Every position of `l`, read with continuation `r`, starts no
`_FOIL_PATTERNS` match (checked in the strongest `\b` context
`prevW = false`). -/
def cleanWith (r : List Char) : List Char → Bool
  | [] => true
  | c :: cs => !(foilMatchAt false (c :: (cs ++ r))).isSome && cleanWith r cs

/-- A character allowed in a round-trippable card name: it starts no foil
marker and is not an opening parenthesis (which could start a spurious
`(SET)` match). -/
def nameOkChar (c : Char) : Bool :=
  !(c = '*' || c = '(' || c = '[' || c = '<' || c = '+')

/-- A valid card name for the round trip: non-empty, no marker-starting
characters, no case-insensitive `foil` substring, and its edge characters
survive the whitespace and quote stripping. -/
def validName (name : List Char) : Bool :=
  !name.isEmpty && name.all nameOkChar && noFoilCI name &&
    (match name.head? with
     | some c => !(isPyWs c || isQuoteCh c)
     | none => false) &&
    (match name.getLast? with
     | some c => !(isPyWs c || isQuoteCh c)
     | none => false)

/-- A valid set code: 2 to 6 upper-case alphanumerics, not containing
`foil`. -/
def validSet (s : List Char) : Bool :=
  2 ≤ s.length && s.length ≤ 6 && s.all isUpperAlnum && noFoilCI s

/-- A valid collector number: alphanumeric head, alphanumeric-or-hyphen
tail, not containing `foil`. -/
def validColl (co : List Char) : Bool :=
  (match co with | c :: _ => isAlnum c | [] => false) &&
    co.all (fun c => isAlnum c || c = '-') && noFoilCI co

-- ————————————————————————————————————————————————————————————————————————
-- Ledger helper lemmas
-- ————————————————————————————————————————————————————————————————————————

theorem le_foldr_max (l : List Inventory) (r : Inventory) (hr : r ∈ l) :
    r.id ≤ l.foldr (fun x m => max x.id m) 0 := by
  induction l with
  | nil => cases hr
  | cons x t ih =>
    rcases List.mem_cons.mp hr with h | h
    · subst h; exact le_max_left _ _
    · exact le_trans (ih h) (le_max_right _ _)

theorem freshId_gt (l : List Inventory) (r : Inventory) (hr : r ∈ l) :
    r.id < freshId l := by
  have := le_foldr_max l r hr
  unfold freshId
  omega

theorem mem_updateById_of_ne {l : List Inventory} {i : Nat}
    {f : Inventory → Inventory} {r : Inventory} (hr : r ∈ l) (hne : r.id ≠ i) :
    r ∈ updateById l i f := by
  have h := List.mem_map_of_mem (fun x => if x.id = i then f x else x) hr
  simpa [updateById, if_neg hne] using h

theorem updateById_eq_self {l : List Inventory} {i : Nat}
    {f : Inventory → Inventory} (h : ∀ r ∈ l, r.id ≠ i) :
    updateById l i f = l := by
  unfold updateById
  have h2 : l.map (fun x => if x.id = i then f x else x) = l.map id := by
    apply List.map_congr_left
    intro a ha
    simp [h a ha]
  simpa using h2

theorem deleteById_eq_self {l : List Inventory} {i : Nat}
    (h : ∀ r ∈ l, r.id ≠ i) : deleteById l i = l := by
  unfold deleteById
  rw [List.filter_eq_self]
  intro a ha
  simpa using h a ha

/-- **C10** — Deck deletion returns every record of the deck to the box by
setting its deck id to absent and changing nothing else: each record keeps
its quantity, foil flag, condition, sideboard flag, commander flag, physical
location, notes and all other fields; no records are merged with each other
or with existing box records, and no record is deleted (the row count is
unchanged and every row is the pointwise image of the old one). -/
theorem delete_deck_returns_all_to_box_unchanged
    (user deckId : Nat) (s : St) (d : Deck)
    (hfind : s.decks.find? (fun dk => dk.id == deckId && dk.user_id == user) = some d) :
    ∃ s', delete_deck user deckId s = .ok s' ∧
      s'.invs = s.invs.map (fun r =>
        if r.current_deck_id == some deckId then
          { r with current_deck_id := none }
        else r) ∧
      s'.invs.length = s.invs.length := by
  simp only [delete_deck, hfind]
  exact ⟨_, rfl, rfl, by simp⟩

/-- Witness for C10 at a concrete store: a two-record deck plus an unrelated
box row. -/
theorem delete_deck_returns_all_to_box_unchanged_witness :
    ∃ s', delete_deck 1 7
        { invs := [
            ⟨1, 1, "a", 2, false, .NM, none, 0, none, some 7, false, false, none, false⟩,
            ⟨2, 1, "a", 1, true, .EX, none, 0, some "n", some 7, true, true, some "L", false⟩,
            ⟨3, 1, "a", 4, false, .NM, none, 0, none, none, false, false, none, false⟩],
          decks := [⟨7, 1, "W"⟩] } = .ok s' ∧
      s'.invs = [
        ⟨1, 1, "a", 2, false, .NM, none, 0, none, none, false, false, none, false⟩,
        ⟨2, 1, "a", 1, true, .EX, none, 0, some "n", none, true, true, some "L", false⟩,
        ⟨3, 1, "a", 4, false, .NM, none, 0, none, none, false, false, none, false⟩] ∧
      s'.invs.length = 3 := by
  obtain ⟨s', h1, h2, h3⟩ :=
    delete_deck_returns_all_to_box_unchanged 1 7
      { invs := [
          ⟨1, 1, "a", 2, false, .NM, none, 0, none, some 7, false, false, none, false⟩,
          ⟨2, 1, "a", 1, true, .EX, none, 0, some "n", some 7, true, true, some "L", false⟩,
          ⟨3, 1, "a", 4, false, .NM, none, 0, none, none, false, false, none, false⟩],
        decks := [⟨7, 1, "W"⟩] } ⟨7, 1, "W"⟩ (by decide)
  exact ⟨s', h1, by rw [h2]; decide, by rw [h3]; decide⟩

/-- One import line keeps a truthy location untouched on the row with id `i`
and never mints that id for a new row. -/
theorem box_import_line_loc_inv (user : Nat) (sid : String) (qty : Int)
    (isFoil : Bool) (loc : Option String) (invs : List Inventory) (i : Nat)
    (pl : Option String) (hT : locTruthy pl = true)
    (hP : ∀ r' ∈ invs, r'.id = i → r'.physical_location = pl)
    (hEx : ∃ r' ∈ invs, r'.id = i) :
    (∀ r' ∈ box_import_line user sid qty isFoil loc invs, r'.id = i →
      r'.physical_location = pl) ∧
    ∃ r' ∈ box_import_line user sid qty isFoil loc invs, r'.id = i := by
  unfold box_import_line
  cases hfind : invs.find? (fun r => r.user_id == user && r.card_scryfall_id == sid &&
      r.is_foil == isFoil && r.current_deck_id == none) with
  | some e =>
    simp only []
    constructor
    · intro r' hr' hid
      rcases List.mem_map.mp hr' with ⟨x, hx, hxe⟩
      by_cases hxi : x.id = e.id
      · rw [if_pos hxi] at hxe
        have hidx : x.id = i := by
          have : r'.id = x.id := by
            subst hxe
            simp only []
            split <;> rfl
          omega
        have hxl : x.physical_location = pl := hP x hx hidx
        subst hxe
        simp only [hxl, hT]
        split
        · next hcond =>
          rw [Bool.and_eq_true] at hcond
          simp [hxl] at hcond
        · simp [hxl]
      · rw [if_neg hxi] at hxe
        subst hxe
        exact hP x hx hid
    · rcases hEx with ⟨r0, hr0, hid0⟩
      by_cases h0 : r0.id = e.id
      · refine ⟨(fun x => if x.id = e.id then
          (let r1 := { x with quantity := x.quantity + qty };
            if locTruthy loc && !locTruthy x.physical_location then
              { r1 with physical_location := loc } else r1) else x) r0,
          List.mem_map_of_mem _ hr0, ?_⟩
        simp only [if_pos h0]
        split <;> simpa using hid0
      · exact ⟨r0, mem_updateById_of_ne hr0 h0, hid0⟩
  | none =>
    simp only []
    constructor
    · intro r' hr' hid
      rcases List.mem_append.mp hr' with h | h
      · exact hP r' h hid
      · rcases hEx with ⟨r0, hr0, hid0⟩
        have hlt := freshId_gt invs r0 hr0
        rcases List.mem_singleton.mp h with rfl
        simp only [newInvRow] at hid
        omega
    · rcases hEx with ⟨r0, hr0, hid0⟩
      exact ⟨r0, List.mem_append_left _ hr0, hid0⟩

/-- The invariant of `box_import_line_loc_inv`, carried through the whole
batch fold. -/
theorem bulk_import_box_loc_inv (user : Nat) (lines : List (String × Int × Bool))
    (hint : String) (invs : List Inventory) (i : Nat) (pl : Option String)
    (hT : locTruthy pl = true)
    (hP : ∀ r' ∈ invs, r'.id = i → r'.physical_location = pl)
    (hEx : ∃ r' ∈ invs, r'.id = i) :
    ∀ r' ∈ bulk_import_box user lines hint invs, r'.id = i →
      r'.physical_location = pl := by
  induction lines generalizing invs with
  | nil => exact fun r' hr' => hP r' hr'
  | cons pl0 t ih =>
    intro r' hr' hid
    have step := box_import_line_loc_inv user pl0.1 pl0.2.1 pl0.2.2 (mkLoc hint)
      invs i pl hT hP hEx
    exact ih _ step.1 step.2 r' hr' hid

/-- **C7 amended** — Bulk import writes the caller-supplied location hint
onto newly created rows, and onto a pre-existing row only when that row's
location was empty; every pre-existing row whose location is a non-empty
string keeps it verbatim through the whole batch. -/
theorem import_preserves_nonempty_locations :
    (∀ (user : Nat) (lines : List (String × Int × Bool)) (hint : String)
      (invs : List Inventory) (r : Inventory),
      IdsNodup invs → r ∈ invs → locTruthy r.physical_location = true →
      ∀ r' ∈ bulk_import_box user lines hint invs, r'.id = r.id →
        r'.physical_location = r.physical_location) ∧
    (∀ (user : Nat) (sid : String) (qty : Int) (isFoil : Bool)
      (loc : Option String) (invs : List Inventory),
      invs.find? (fun r => r.user_id == user && r.card_scryfall_id == sid &&
        r.is_foil == isFoil && r.current_deck_id == none) = none →
      box_import_line user sid qty isFoil loc invs =
        invs ++ [newInvRow (freshId invs) user sid qty isFoil .NM none loc]) := by
  constructor
  · intro user lines hint invs r hids hr hT
    apply bulk_import_box_loc_inv user lines hint invs r.id r.physical_location hT
    · intro r' hr' hid
      have := List.inj_on_of_nodup_map hids hr' hr hid
      rw [this]
    · exact ⟨r, hr, rfl⟩
  · intro user sid qty isFoil loc invs hfind
    unfold box_import_line
    rw [hfind]

/-- Witness for the C7 amended theorem: both halves at a concrete batch. -/
theorem import_preserves_nonempty_locations_witness :
    (∀ r' ∈ bulk_import_box 1 [("c", 2, false)] "Shelf"
        [⟨1, 1, "c", 1, false, .NM, none, 0, none, none, false, false, some "Binder", false⟩],
      r'.id = 1 → r'.physical_location = some "Binder") ∧
    box_import_line 1 "d" 2 false (some "Shelf")
        [⟨1, 1, "c", 1, false, .NM, none, 0, none, none, false, false, some "Binder", false⟩] =
      [⟨1, 1, "c", 1, false, .NM, none, 0, none, none, false, false, some "Binder", false⟩,
       ⟨2, 1, "d", 2, false, .NM, none, 0, none, none, false, false, some "Shelf", false⟩] := by
  constructor
  · exact fun r' hr' hid =>
      import_preserves_nonempty_locations.1 1 [("c", 2, false)] "Shelf"
        [⟨1, 1, "c", 1, false, .NM, none, 0, none, none, false, false, some "Binder", false⟩]
        ⟨1, 1, "c", 1, false, .NM, none, 0, none, none, false, false, some "Binder", false⟩
        (by decide) (by decide) (by decide) r' hr' hid
  · have h := import_preserves_nonempty_locations.2 1 "d" 2 false (some "Shelf")
      [⟨1, 1, "c", 1, false, .NM, none, 0, none, none, false, false, some "Binder", false⟩]
      (by rfl)
    rw [h]
    rfl

/-- **C1** (code bug) — Conservation fails when source and destination denote
the same record: `move_card` with the record's own deck as target finds the
source row itself as `existing`, doubles its quantity, then deletes it — all
3 units are destroyed (ledger total drops from 3 to 0), contradicting
invariant I3. -/
theorem conservation_selfmove_destroys_units :
    move_card (fun _ => "") 1 1 (some 5) (some 3)
        { invs := [⟨1, 1, "c", 3, false, .NM, none, 0, none, some 5, false, false, none, false⟩],
          decks := [⟨5, 1, ""⟩] } =
      .ok { invs := [], decks := [⟨5, 1, ""⟩] } ∧
    totalQty [⟨1, 1, "c", 3, false, CardCondition.NM, none, 0, none, some 5, false,
      false, none, false⟩] = 3 ∧
    totalQty ([] : List Inventory) = 0 :=
  ⟨rfl, rfl, rfl⟩

/-- **C8** (code bug) — After a full `move_card` of the only card of deck 1
to the Box, line 649 reads the *already rewritten* `current_deck_id` (now
`None`), so the source deck is never recomputed: deck 1's stored colour
identity stays `"W"` while the aggregator over its (now empty) record set
yields `""`. -/
theorem color_identity_stale_source_deck :
    move_card (fun sid => if sid = "cW" then "W" else "") 1 1 none none
        { invs := [⟨1, 1, "cW", 2, false, .NM, none, 0, none, some 1, false, false, none, false⟩],
          decks := [⟨1, 1, "W"⟩] } =
      .ok { invs := [⟨1, 1, "cW", 2, false, .NM, none, 0, none, none, false, false, none, false⟩],
            decks := [⟨1, 1, "W"⟩] } ∧
    compute_color_identity (fun sid => if sid = "cW" then "W" else "")
      [⟨1, 1, "cW", 2, false, .NM, none, 0, none, none, false, false, none, false⟩] 1 = "" :=
  ⟨rfl, rfl⟩

/-- **C2 counterexample** — A quantity-and-flag edit violates uniqueness:
deck 3 holds a mainboard row (id 1) and a sideboard row (id 2) of the same
card; `edit_card` flipping row 2's sideboard flag to false performs no merge
check (collection.py:307-310), leaving two records with the identical
identity key `(1, "c", false, some 3, false)`. -/
theorem uniqueness_flag_edit_breaks :
    uniqueKeysB [
      ⟨1, 1, "c", 2, false, .NM, none, 0, none, some 3, false, false, none, false⟩,
      ⟨2, 1, "c", 1, false, .NM, none, 0, none, some 3, true, false, none, false⟩] = true ∧
    edit_card (fun _ => true) 1 2
        { quantity := 1, condition := some .NM, purchase := none, new_sid := none,
          is_foil := some false, is_proxy := false, notes := "",
          physical_location := none, is_sideboard := some false,
          is_commander := some false }
        { invs := [
            ⟨1, 1, "c", 2, false, .NM, none, 0, none, some 3, false, false, none, false⟩,
            ⟨2, 1, "c", 1, false, .NM, none, 0, none, some 3, true, false, none, false⟩],
          decks := [⟨3, 1, ""⟩] } =
      .ok { invs := [
              ⟨1, 1, "c", 2, false, .NM, none, 0, none, some 3, false, false, none, false⟩,
              ⟨2, 1, "c", 1, false, .NM, none, 0, some "", some 3, false, false, none, false⟩],
            decks := [⟨3, 1, ""⟩] } ∧
    uniqueKeysB [
      ⟨1, 1, "c", 2, false, .NM, none, 0, none, some 3, false, false, none, false⟩,
      ⟨2, 1, "c", 1, false, .NM, none, 0, some "", some 3, false, false, none, false⟩] = false :=
  ⟨rfl, rfl, rfl⟩

/-- **C3 counterexample** — `remove_card` does not fail when the requested
quantity (5) exceeds the record's quantity (3): line 547 clamps the request
with `min` and the operation succeeds, moving the whole row to the Box, so
the ledger is changed instead of an `InsufficientQuantity` error. -/
theorem remove_card_clamps_not_errors :
    remove_card (fun _ => "") 1 4 1 (some 5)
        { invs := [⟨1, 1, "c", 3, false, .NM, none, 0, none, some 4, false, false, none, false⟩],
          decks := [⟨4, 1, ""⟩] } =
      .ok { invs := [⟨1, 1, "c", 3, false, .NM, none, 0, none, none, false, false, none, false⟩],
            decks := [⟨4, 1, ""⟩] } := by
  rfl

/-- **C4 counterexample** — The box-to-peer-box `transfer` of a full
quantity with no matching destination row does *not* rewrite the source row
in place: it deletes row 1 and inserts a brand-new row (id 2) for the
receiving user (friends.py:187-204), refuting "no new record is allocated
... including the box-to-peer-box transfer". -/
theorem transfer_allocates_new_row :
    transfer (fun _ => "") 1 1 none 2 true
        { invs := [⟨1, 2, "c", 2, false, .NM, none, 0, none, none, false, false, none, false⟩],
          decks := [] } =
      .ok { invs := [⟨2, 1, "c", 2, false, .NM, none, 0, none, none, false, false, none, false⟩],
            decks := [] } ∧
    ([⟨2, 1, "c", 2, false, CardCondition.NM, none, 0, none, none, false, false, none,
      false⟩] : List Inventory).all (fun r => decide (r.id ≠ 1)) = true :=
  ⟨rfl, rfl⟩

/-- **C5 counterexample** — `add_card`'s destination lookup
(decks.py:483-488) omits `is_sideboard`: moving a mainboard-flagged Box row
into deck 7 merges it into the deck's *sideboard* row (id 2), a record that
differs in the sideboard component of the identity key. -/
theorem add_card_merges_across_sideboard :
    add_card (fun _ => "") 1 7 1 1
        { invs := [
            ⟨1, 1, "c", 1, false, .NM, none, 0, none, none, false, false, none, false⟩,
            ⟨2, 1, "c", 2, false, .NM, none, 0, none, some 7, true, false, none, false⟩],
          decks := [⟨7, 1, ""⟩] } =
      .ok { invs := [⟨2, 1, "c", 3, false, .NM, none, 0, none, some 7, true, false, none, false⟩],
            decks := [⟨7, 1, ""⟩] } := by
  rfl

/-- **C7 counterexample** — Importing into a Box that already holds the card
writes the location hint onto the pre-existing row when its location was
empty (card_service.py:319-320): row 1's `physical_location` changes from
`None` to `"Shelf"`, so it is not identical to its pre-import value. -/
theorem import_writes_location_on_empty_existing :
    box_import_line 1 "c" 2 false (mkLoc "Shelf")
        [⟨1, 1, "c", 1, false, .NM, none, 0, none, none, false, false, none, false⟩] =
      [⟨1, 1, "c", 3, false, .NM, none, 0, none, none, false, false, some "Shelf", false⟩] := by
  rfl

/-- **C3 amended** — Only `add_card` rejects an excess quantity with a typed
error (leaving the ledger untouched, since the handler returns before any
write); `remove_card`, `move_card` and `transfer` silently clamp the request
to the source row's quantity and proceed — requesting more than is available
gives exactly the same result as requesting the whole row. -/
theorem quantity_excess_add_errors_others_clamp :
    (∀ (cc : String → String) (user deckId invId : Nat) (qty : Int) (s : St)
      (dk : Deck) (box : Inventory),
      s.decks.find? (fun d => d.id == deckId) = some dk →
      s.invs.find? (fun r => r.id == invId && r.user_id == user &&
        r.current_deck_id == none) = some box →
      1 ≤ qty → box.quantity < qty →
      add_card cc user deckId invId qty s = .error .insufficient) ∧
    (∀ (cc : String → String) (user deckId invId : Nat) (q : Int) (s : St)
      (dk : Deck) (dinv : Inventory),
      s.decks.find? (fun d => d.id == deckId) = some dk →
      s.invs.find? (fun r => r.id == invId && r.user_id == user &&
        r.current_deck_id == some deckId) = some dinv →
      1 ≤ dinv.quantity → dinv.quantity < q →
      remove_card cc user deckId invId (some q) s =
        remove_card cc user deckId invId (some dinv.quantity) s) ∧
    (∀ (cc : String → String) (user invId : Nat) (targetReq : Option Nat)
      (q : Int) (s : St) (src : Inventory),
      s.invs.find? (fun r => r.id == invId && r.user_id == user) = some src →
      1 ≤ src.quantity → src.quantity < q →
      move_card cc user invId targetReq (some q) s =
        move_card cc user invId targetReq (some src.quantity) s) ∧
    (∀ (cc : String → String) (actor invId : Nat) (deckReq : Option Nat)
      (q : Int) (canView : Bool) (s : St) (src : Inventory),
      s.invs.find? (fun r => r.id == invId && r.current_deck_id == none) = some src →
      1 ≤ src.quantity → src.quantity < q →
      transfer cc actor invId deckReq q canView s =
        transfer cc actor invId deckReq src.quantity canView s) := by
  refine ⟨?_, ?_, ?_, ?_⟩
  · intro cc user deckId invId qty s dk box hdeck hbox h1 hlt
    simp only [add_card, hdeck, hbox, if_neg (show ¬ qty < 1 by omega), if_pos hlt]
  · intro cc user deckId invId q s dk dinv hdeck hinv h1 hlt
    have hq1 : ¬ (q < 1) := by omega
    have hd1 : ¬ (dinv.quantity < 1) := by omega
    simp only [remove_card, hdeck, hinv, if_neg hq1, if_neg hd1,
      min_eq_right (le_of_lt hlt), min_self]
  · intro cc user invId targetReq q s src hsrc h1 hlt
    simp only [move_card, move_card_core, hsrc, Option.getD_some,
      min_eq_right (le_of_lt hlt), min_self,
      max_eq_right h1]
  · intro cc actor invId deckReq q canView s src hsrc h1 hlt
    have hq1 : ¬ (q < 1) := by omega
    have hs1 : ¬ (src.quantity < 1) := by omega
    simp only [transfer, transfer_core, if_neg hq1, if_neg hs1, hsrc,
      min_eq_right (le_of_lt hlt), min_self]

/-- Witness for the C3 amended theorem: all four parts at concrete stores. -/
theorem quantity_excess_add_errors_others_clamp_witness :
    add_card (fun _ => "") 1 7 1 5
        { invs := [⟨1, 1, "c", 3, false, .NM, none, 0, none, none, false, false, none, false⟩],
          decks := [⟨7, 1, ""⟩] } = .error .insufficient ∧
    remove_card (fun _ => "") 1 7 1 (some 5)
        { invs := [⟨1, 1, "c", 3, false, .NM, none, 0, none, some 7, false, false, none, false⟩],
          decks := [⟨7, 1, ""⟩] } =
      remove_card (fun _ => "") 1 7 1 (some 3)
        { invs := [⟨1, 1, "c", 3, false, .NM, none, 0, none, some 7, false, false, none, false⟩],
          decks := [⟨7, 1, ""⟩] } ∧
    move_card (fun _ => "") 1 1 none (some 9)
        { invs := [⟨1, 1, "c", 3, false, .NM, none, 0, none, some 7, false, false, none, false⟩],
          decks := [⟨7, 1, ""⟩] } =
      move_card (fun _ => "") 1 1 none (some 3)
        { invs := [⟨1, 1, "c", 3, false, .NM, none, 0, none, some 7, false, false, none, false⟩],
          decks := [⟨7, 1, ""⟩] } ∧
    transfer (fun _ => "") 1 1 none 9 true
        { invs := [⟨1, 2, "c", 3, false, .NM, none, 0, none, none, false, false, none, false⟩],
          decks := [] } =
      transfer (fun _ => "") 1 1 none 3 true
        { invs := [⟨1, 2, "c", 3, false, .NM, none, 0, none, none, false, false, none, false⟩],
          decks := [] } := by
  refine ⟨?_, ?_, ?_, ?_⟩
  · exact quantity_excess_add_errors_others_clamp.1 (fun _ => "") 1 7 1 5 _
      ⟨7, 1, ""⟩ ⟨1, 1, "c", 3, false, .NM, none, 0, none, none, false, false, none, false⟩
      rfl rfl (by decide) (by decide)
  · exact quantity_excess_add_errors_others_clamp.2.1 (fun _ => "") 1 7 1 5 _
      ⟨7, 1, ""⟩ ⟨1, 1, "c", 3, false, .NM, none, 0, none, some 7, false, false, none, false⟩
      rfl rfl (by decide) (by decide)
  · exact quantity_excess_add_errors_others_clamp.2.2.1 (fun _ => "") 1 1 none 9 _
      ⟨1, 1, "c", 3, false, .NM, none, 0, none, some 7, false, false, none, false⟩
      rfl (by decide) (by decide)
  · exact quantity_excess_add_errors_others_clamp.2.2.2 (fun _ => "") 1 1 none 9 true _
      ⟨1, 2, "c", 3, false, .NM, none, 0, none, none, false, false, none, false⟩
      rfl (by decide) (by decide)

/-- **C4 amended** — For the box/deck movers (`add_card`, `remove_card`,
`move_card`) a full move with no row at the destination key rewrites the
source row's mutable key field (`current_deck_id`) in place: the resulting
ledger is exactly the old one with that single row updated, so the primary
key is kept and no new row is allocated.  The box-to-peer-box `transfer`
does *not* share this behaviour: it deletes the source row and inserts a
fresh one (see `transfer_allocates_new_row`). -/
theorem full_move_rewrites_in_place :
    (∀ (cc : String → String) (user deckId invId : Nat) (s : St)
      (dk : Deck) (box : Inventory),
      s.decks.find? (fun d => d.id == deckId) = some dk →
      s.invs.find? (fun r => r.id == invId && r.user_id == user &&
        r.current_deck_id == none) = some box →
      1 ≤ box.quantity →
      s.invs.find? (fun r => r.user_id == user &&
        r.card_scryfall_id == box.card_scryfall_id &&
        r.is_foil == box.is_foil && r.current_deck_id == some deckId) = none →
      ∃ s', add_card cc user deckId invId box.quantity s = .ok s' ∧
        s'.invs = updateById s.invs box.id
          (fun r => { r with current_deck_id := some deckId })) ∧
    (∀ (cc : String → String) (user deckId invId : Nat) (s : St)
      (dk : Deck) (dinv : Inventory),
      s.decks.find? (fun d => d.id == deckId) = some dk →
      s.invs.find? (fun r => r.id == invId && r.user_id == user &&
        r.current_deck_id == some deckId) = some dinv →
      s.invs.find? (fun r => r.user_id == user &&
        r.card_scryfall_id == dinv.card_scryfall_id &&
        r.is_foil == dinv.is_foil && r.current_deck_id == none) = none →
      ∃ s', remove_card cc user deckId invId none s = .ok s' ∧
        s'.invs = updateById s.invs dinv.id
          (fun r => { r with current_deck_id := none })) ∧
    (∀ (cc : String → String) (user invId t : Nat) (s : St)
      (dk : Deck) (src : Inventory),
      s.invs.find? (fun r => r.id == invId && r.user_id == user) = some src →
      t ≠ 0 →
      s.decks.find? (fun d => d.id == t) = some dk →
      s.invs.find? (fun r => r.user_id == user &&
        r.card_scryfall_id == src.card_scryfall_id &&
        r.is_foil == src.is_foil && r.current_deck_id == some t) = none →
      1 ≤ src.quantity →
      ∃ s', move_card cc user invId (some t) none s = .ok s' ∧
        s'.invs = updateById s.invs src.id
          (fun r => { r with current_deck_id := some t })) := by
  refine ⟨?_, ?_, ?_⟩
  · intro cc user deckId invId s dk box hdeck hbox h1 hdest
    simp only [add_card, hdeck, hbox, hdest, if_neg (show ¬ box.quantity < 1 by omega),
      if_neg (lt_irrefl box.quantity), beq_self_eq_true, if_true]
    exact ⟨_, rfl, rfl⟩
  · intro cc user deckId invId s dk dinv hdeck hinv hbox
    simp only [remove_card, hdeck, hinv, hbox, min_self, le_refl, if_true]
    exact ⟨_, rfl, rfl⟩
  · intro cc user invId t s dk src hsrc ht hdeck hdest h1
    simp only [move_card, move_card_core, hsrc, if_neg ht, hdeck, hdest,
      Option.getD_none, min_self, max_eq_right h1, le_refl, if_true]
    exact ⟨_, rfl, rfl⟩

/-- Witness for the C4 amended theorem: the three in-place rewrites at
concrete stores. -/
theorem full_move_rewrites_in_place_witness :
    (∃ s', add_card (fun _ => "") 1 7 1 2
        { invs := [⟨1, 1, "c", 2, false, .NM, none, 0, none, none, false, false, none, false⟩],
          decks := [⟨7, 1, ""⟩] } = .ok s' ∧
      s'.invs = [⟨1, 1, "c", 2, false, .NM, none, 0, none, some 7, false, false, none, false⟩]) ∧
    (∃ s', remove_card (fun _ => "") 1 7 1 none
        { invs := [⟨1, 1, "c", 2, false, .NM, none, 0, none, some 7, false, false, none, false⟩],
          decks := [⟨7, 1, ""⟩] } = .ok s' ∧
      s'.invs = [⟨1, 1, "c", 2, false, .NM, none, 0, none, none, false, false, none, false⟩]) ∧
    (∃ s', move_card (fun _ => "") 1 1 (some 9) none
        { invs := [⟨1, 1, "c", 2, false, .NM, none, 0, none, some 7, false, false, none, false⟩],
          decks := [⟨7, 1, ""⟩, ⟨9, 1, ""⟩] } = .ok s' ∧
      s'.invs = [⟨1, 1, "c", 2, false, .NM, none, 0, none, some 9, false, false, none, false⟩]) := by
  refine ⟨?_, ?_, ?_⟩
  · obtain ⟨s', h1, h2⟩ := full_move_rewrites_in_place.1 (fun _ => "") 1 7 1
      { invs := [⟨1, 1, "c", 2, false, .NM, none, 0, none, none, false, false, none, false⟩],
        decks := [⟨7, 1, ""⟩] }
      ⟨7, 1, ""⟩ ⟨1, 1, "c", 2, false, .NM, none, 0, none, none, false, false, none, false⟩
      rfl rfl (by decide) rfl
    exact ⟨s', h1, by rw [h2]; rfl⟩
  · obtain ⟨s', h1, h2⟩ := full_move_rewrites_in_place.2.1 (fun _ => "") 1 7 1
      { invs := [⟨1, 1, "c", 2, false, .NM, none, 0, none, some 7, false, false, none, false⟩],
        decks := [⟨7, 1, ""⟩] }
      ⟨7, 1, ""⟩ ⟨1, 1, "c", 2, false, .NM, none, 0, none, some 7, false, false, none, false⟩
      rfl rfl rfl
    exact ⟨s', h1, by rw [h2]; rfl⟩
  · obtain ⟨s', h1, h2⟩ := full_move_rewrites_in_place.2.2 (fun _ => "") 1 1 9
      { invs := [⟨1, 1, "c", 2, false, .NM, none, 0, none, some 7, false, false, none, false⟩],
        decks := [⟨7, 1, ""⟩, ⟨9, 1, ""⟩] }
      ⟨9, 1, ""⟩ ⟨1, 1, "c", 2, false, .NM, none, 0, none, some 7, false, false, none, false⟩
      rfl (by decide) rfl rfl (by decide)
    exact ⟨s', h1, by rw [h2]; rfl⟩

/-- **C5 amended** — Only the import upsert `_upsert_deck_row` matches its
destination on the full five-component identity key: a row it merges into
agrees with the request on user, printing, foil, deck *and* sideboard flag,
and every row disagreeing in any component is carried over untouched.  The
movement handlers match on the four components without the sideboard flag
and can merge units into a row whose sideboard flag differs
(counterexample `add_card_merges_across_sideboard`). -/
theorem upsert_deck_row_exact_key_match :
    (∀ (user deckId : Nat) (sid : String) (isFoil isSb : Bool)
      (invs : List Inventory) (e : Inventory),
      invs.find? (fun r => r.user_id == user && r.card_scryfall_id == sid &&
        r.is_foil == isFoil && r.current_deck_id == some deckId &&
        r.is_sideboard == isSb) = some e →
      e.user_id = user ∧ e.card_scryfall_id = sid ∧ e.is_foil = isFoil ∧
        e.current_deck_id = some deckId ∧ e.is_sideboard = isSb) ∧
    (∀ (user deckId : Nat) (sid : String) (qty : Int) (isFoil isSb : Bool)
      (invs : List Inventory),
      IdsNodup invs →
      ∀ r ∈ invs,
        ¬ (r.user_id = user ∧ r.card_scryfall_id = sid ∧ r.is_foil = isFoil ∧
           r.current_deck_id = some deckId ∧ r.is_sideboard = isSb) →
        r ∈ upsert_deck_row user deckId sid qty isFoil isSb invs) := by
  constructor
  · intro user deckId sid isFoil isSb invs e hfind
    have h := List.find?_some hfind
    simp only [Bool.and_eq_true, beq_iff_eq] at h
    exact ⟨h.1.1.1.1, h.1.1.1.2, h.1.1.2, h.1.2, h.2⟩
  · intro user deckId sid qty isFoil isSb invs hids r hr hnk
    unfold upsert_deck_row
    cases hfind : invs.find? (fun x => x.user_id == user && x.card_scryfall_id == sid &&
        x.is_foil == isFoil && x.current_deck_id == some deckId &&
        x.is_sideboard == isSb) with
    | some e =>
      have he := List.find?_some hfind
      have hemem := List.mem_of_find?_eq_some hfind
      simp only [Bool.and_eq_true, beq_iff_eq] at he
      have hne : r.id ≠ e.id := by
        intro hid
        have : r = e := List.inj_on_of_nodup_map hids hr hemem hid
        subst this
        exact hnk ⟨he.1.1.1.1, he.1.1.1.2, he.1.1.2, he.1.2, he.2⟩
      exact mem_updateById_of_ne hr hne
    | none =>
      exact List.mem_append_left _ hr

/-- Witness for the C5 amended theorem: both halves at a concrete ledger
holding a mainboard and a sideboard row of the same card. -/
theorem upsert_deck_row_exact_key_match_witness :
    (⟨2, 1, "c", 1, false, .NM, none, 0, none, some 7, true, false, none, false⟩ :
        Inventory).user_id = 1 ∧
    (⟨1, 1, "c", 2, false, CardCondition.NM, none, 0, none, some 7, false, false, none,
      false⟩ : Inventory) ∈ upsert_deck_row 1 7 "c" 1 false true
        [⟨1, 1, "c", 2, false, .NM, none, 0, none, some 7, false, false, none, false⟩,
         ⟨2, 1, "c", 1, false, .NM, none, 0, none, some 7, true, false, none, false⟩] := by
  constructor
  · exact (upsert_deck_row_exact_key_match.1 1 7 "c" false true
      [⟨1, 1, "c", 2, false, .NM, none, 0, none, some 7, false, false, none, false⟩,
       ⟨2, 1, "c", 1, false, .NM, none, 0, none, some 7, true, false, none, false⟩]
      ⟨2, 1, "c", 1, false, .NM, none, 0, none, some 7, true, false, none, false⟩ rfl).1
  · exact upsert_deck_row_exact_key_match.2 1 7 "c" 1 false true
      [⟨1, 1, "c", 2, false, .NM, none, 0, none, some 7, false, false, none, false⟩,
       ⟨2, 1, "c", 1, false, .NM, none, 0, none, some 7, true, false, none, false⟩]
      (by decide)
      ⟨1, 1, "c", 2, false, .NM, none, 0, none, some 7, false, false, none, false⟩
      (by decide) (by decide)

-- ————————————————————————————————————————————————————————————————————————
-- Location-total bookkeeping lemmas
-- ————————————————————————————————————————————————————————————————————————

theorem locQty_nil (u : Nat) (sid : String) (fo : Bool) (dk : Option Nat) :
    locQty [] u sid fo dk = 0 := rfl

theorem locQty_cons (x : Inventory) (t : List Inventory) (u : Nat) (sid : String)
    (fo : Bool) (dk : Option Nat) :
    locQty (x :: t) u sid fo dk = contrib u sid fo dk x + locQty t u sid fo dk := rfl

theorem locQty_append (a b : List Inventory) (u : Nat) (sid : String) (fo : Bool)
    (dk : Option Nat) :
    locQty (a ++ b) u sid fo dk = locQty a u sid fo dk + locQty b u sid fo dk := by
  induction a with
  | nil => simp [locQty]
  | cons x t ih =>
    rw [List.cons_append, locQty_cons, locQty_cons, ih]
    ring

theorem updateById_map_id {l : List Inventory} {i : Nat} {f : Inventory → Inventory}
    (hf : ∀ r, (f r).id = r.id) :
    (updateById l i f).map (fun r => r.id) = l.map (fun r => r.id) := by
  unfold updateById
  rw [List.map_map]
  apply List.map_congr_left
  intro a _
  by_cases h : a.id = i <;> simp [h, hf]

theorem idsNodup_updateById {l : List Inventory} {i : Nat} {f : Inventory → Inventory}
    (hf : ∀ r, (f r).id = r.id) (hids : IdsNodup l) :
    IdsNodup (updateById l i f) := by
  unfold IdsNodup
  rw [updateById_map_id hf]
  exact hids

theorem mem_updateById_self {l : List Inventory} {i : Nat} {f : Inventory → Inventory}
    {r0 : Inventory} (hr : r0 ∈ l) (hid : r0.id = i) : f r0 ∈ updateById l i f := by
  have h := List.mem_map_of_mem (fun x => if x.id = i then f x else x) hr
  simpa [updateById, if_pos hid] using h

theorem updateById_cons (x : Inventory) (t : List Inventory) (i : Nat)
    (f : Inventory → Inventory) :
    updateById (x :: t) i f = (if x.id = i then f x else x) :: updateById t i f := rfl

theorem deleteById_cons (x : Inventory) (t : List Inventory) (i : Nat) :
    deleteById (x :: t) i =
      if x.id = i then deleteById t i else x :: deleteById t i := by
  unfold deleteById
  by_cases h : x.id = i <;> simp [List.filter_cons, h]

theorem locQty_updateById (l : List Inventory) (i : Nat) (f : Inventory → Inventory)
    (r0 : Inventory) (hids : IdsNodup l) (hmem : r0 ∈ l) (hid : r0.id = i)
    (u : Nat) (sid : String) (fo : Bool) (dk : Option Nat) :
    locQty (updateById l i f) u sid fo dk =
      locQty l u sid fo dk - contrib u sid fo dk r0 + contrib u sid fo dk (f r0) := by
  induction l with
  | nil => cases hmem
  | cons x t ih =>
    obtain ⟨hx, hids'⟩ : x.id ∉ t.map (fun r => r.id) ∧ IdsNodup t := by
      simpa [IdsNodup] using hids
    rcases List.mem_cons.mp hmem with rfl | hmem'
    · have ht : ∀ r ∈ t, r.id ≠ i := by
        intro r hr hri
        exact hx (hid ▸ hri ▸ List.mem_map_of_mem _ hr)
      rw [updateById_cons, if_pos hid, updateById_eq_self ht, locQty_cons, locQty_cons]
      ring
    · have hxne : x.id ≠ i := by
        intro h
        exact hx (h ▸ hid ▸ List.mem_map_of_mem _ hmem')
      rw [updateById_cons, if_neg hxne, locQty_cons, locQty_cons, ih hids' hmem']
      ring

theorem locQty_deleteById (l : List Inventory) (i : Nat) (r0 : Inventory)
    (hids : IdsNodup l) (hmem : r0 ∈ l) (hid : r0.id = i)
    (u : Nat) (sid : String) (fo : Bool) (dk : Option Nat) :
    locQty (deleteById l i) u sid fo dk =
      locQty l u sid fo dk - contrib u sid fo dk r0 := by
  induction l with
  | nil => cases hmem
  | cons x t ih =>
    obtain ⟨hx, hids'⟩ : x.id ∉ t.map (fun r => r.id) ∧ IdsNodup t := by
      simpa [IdsNodup] using hids
    rcases List.mem_cons.mp hmem with rfl | hmem'
    · have ht : ∀ r ∈ t, r.id ≠ i := by
        intro r hr hri
        exact hx (hid ▸ hri ▸ List.mem_map_of_mem _ hr)
      rw [deleteById_cons, if_pos hid, deleteById_eq_self ht, locQty_cons]
      ring
    · have hxne : x.id ≠ i := by
        intro h
        exact hx (h ▸ hid ▸ List.mem_map_of_mem _ hmem')
      rw [deleteById_cons, if_neg hxne, locQty_cons, locQty_cons, ih hids' hmem']
      ring

theorem locQty_updateById_of_contrib_eq (l : List Inventory) (i : Nat)
    (f : Inventory → Inventory) (u : Nat) (sid : String) (fo : Bool) (dk : Option Nat)
    (hf : ∀ r, contrib u sid fo dk (f r) = contrib u sid fo dk r) :
    locQty (updateById l i f) u sid fo dk = locQty l u sid fo dk := by
  induction l with
  | nil => rfl
  | cons x t ih =>
    rw [updateById_cons, locQty_cons, locQty_cons, ih]
    by_cases h : x.id = i
    · rw [if_pos h, hf]
    · rw [if_neg h]

theorem editFields_proj (req : EditReq) (cond : CardCondition) (r : Inventory) :
    (editFields req cond r).id = r.id ∧
    (editFields req cond r).user_id = r.user_id ∧
    (editFields req cond r).card_scryfall_id = r.card_scryfall_id ∧
    (editFields req cond r).is_foil = req.is_foil.getD false ∧
    (editFields req cond r).current_deck_id = r.current_deck_id ∧
    (editFields req cond r).quantity = req.quantity := by
  unfold editFields
  cases req.physical_location with
  | none => by_cases h : r.current_deck_id.isSome <;> simp [h]
  | some v => by_cases h : r.current_deck_id.isSome <;> simp [h]

theorem contrib_editFields (req : EditReq) (cond : CardCondition) (r : Inventory)
    (u : Nat) (sid : String) (fo : Bool) (dk : Option Nat) :
    contrib u sid fo dk (editFields req cond r) =
      if (r.user_id == u && r.card_scryfall_id == sid &&
          req.is_foil.getD false == fo && r.current_deck_id == dk) then
        req.quantity
      else 0 := by
  obtain ⟨h1, h2, h3, h4, h5, h6⟩ := editFields_proj req cond r
  simp only [contrib, matchesLoc, h2, h3, h4, h5, h6]

/-- **C6** — Printing substitution moves exactly one unit per invocation:
with `inv.quantity = 1` the row fully moves to the new-printing key (merged
into a duplicate there, the source row deleted, or its `card_scryfall_id`
rewritten in place); with `inv.quantity > 1` exactly one unit moves to the
new-printing key (merged or inserted as a quantity-1 row) and
`quantity - 1` units remain at the old printing.  Stated as: the total at
the new-printing location key rises by exactly 1 and the total at the
old-printing location key falls by exactly 1. -/
theorem printing_substitution_moves_one_unit
    (cardExists : String → Bool) (user invId : Nat) (req : EditReq) (s : St)
    (inv : Inventory) (nsid : String) (f : Bool) (cond : CardCondition)
    (hids : IdsNodup s.invs)
    (hfind : s.invs.find? (fun r => r.id == invId && r.user_id == user) = some inv)
    (hnew : req.new_sid = some nsid)
    (hdiff : nsid ≠ inv.card_scryfall_id)
    (hce : cardExists nsid = true)
    (hcond : req.condition = some cond)
    (hfoil : req.is_foil = some f)
    (hqlo : 1 ≤ req.quantity) (hqhi : req.quantity ≤ 99)
    (hpur : req.purchase = none)
    (hone : inv.quantity = 1 → req.quantity = 1) :
    ∃ s', edit_card cardExists user invId req s = .ok s' ∧
      locQty s'.invs user nsid f inv.current_deck_id =
        locQty s.invs user nsid f inv.current_deck_id + 1 ∧
      locQty s'.invs user inv.card_scryfall_id inv.is_foil inv.current_deck_id =
        locQty s.invs user inv.card_scryfall_id inv.is_foil inv.current_deck_id - 1 := by
  have hkey := List.find?_some hfind
  simp only [Bool.and_eq_true, beq_iff_eq] at hkey
  obtain ⟨hinvid, hinvuser⟩ := hkey
  have hmem := List.mem_of_find?_eq_some hfind
  have hq : ¬ (req.quantity < 1 ∨ 99 < req.quantity) := by omega
  have hcardne : (inv.card_scryfall_id == nsid) = false := by
    rw [beq_eq_false_iff_ne]
    exact fun h => hdiff h.symm
  have hcontribN_inv : contrib user nsid f inv.current_deck_id inv = 0 := by
    simp [contrib, matchesLoc, hcardne]
  have hcontribO_inv :
      contrib user inv.card_scryfall_id inv.is_foil inv.current_deck_id inv =
        inv.quantity := by
    simp [contrib, matchesLoc, hinvuser]
  simp only [edit_card, hfind, hnew, hcond, hpur, hfoil, Option.getD_some,
    if_neg hq, hce, Bool.not_true, Bool.false_eq_true, if_false, if_pos hdiff]
  by_cases h1 : inv.quantity = 1
  · simp only [if_pos h1]
    cases hdup : s.invs.find? (fun r => r.id != inv.id && r.user_id == user &&
        r.card_scryfall_id == nsid && r.is_foil == f &&
        r.current_deck_id == inv.current_deck_id) with
    | some dup =>
      simp only [hdup]
      refine ⟨_, rfl, ?_, ?_⟩
      all_goals {
        have hdupmem := List.mem_of_find?_eq_some hdup
        have hdupkey := List.find?_some hdup
        simp only [Bool.and_eq_true, bne_iff_ne, beq_iff_eq] at hdupkey
        obtain ⟨⟨⟨⟨hdne, hduser⟩, hdcard⟩, hdfoil⟩, hddeck⟩ := hdupkey
        have hdupcontribN :
            contrib user nsid f inv.current_deck_id dup = dup.quantity := by
          simp [contrib, matchesLoc, hduser, hdcard, hdfoil, hddeck]
        have hdupcontribN' :
            contrib user nsid f inv.current_deck_id
              { dup with quantity := dup.quantity + 1 } = dup.quantity + 1 := by
          simp [contrib, matchesLoc, hduser, hdcard, hdfoil, hddeck]
        have hdupcontribO :
            contrib user inv.card_scryfall_id inv.is_foil inv.current_deck_id dup
              = 0 := by
          simp [contrib, matchesLoc, hdcard, hcardne, hdiff]
        have hdupcontribO' :
            contrib user inv.card_scryfall_id inv.is_foil inv.current_deck_id
              { dup with quantity := dup.quantity + 1 } = 0 := by
          simp [contrib, matchesLoc, hdcard, hcardne, hdiff]
        have hidsU : IdsNodup (updateById s.invs dup.id
            (fun r => { r with quantity := r.quantity + 1 })) :=
          idsNodup_updateById (fun r => rfl) hids
        have hmemU : inv ∈ updateById s.invs dup.id
            (fun r => { r with quantity := r.quantity + 1 }) :=
          mem_updateById_of_ne hmem (fun h => hdne h.symm)
        rw [locQty_deleteById _ inv.id inv hidsU hmemU rfl,
          locQty_updateById s.invs dup.id _ dup hids hdupmem rfl]
        simp only [hdupcontribN, hdupcontribN', hdupcontribO, hdupcontribO',
          hcontribN_inv, hcontribO_inv, h1]
        ring
      }
    | none =>
      simp only [hdup]
      refine ⟨_, rfl, ?_, ?_⟩
      all_goals {
        have hidsC : IdsNodup (updateById s.invs inv.id
            (fun r => { r with card_scryfall_id := nsid })) :=
          idsNodup_updateById (fun r => rfl) hids
        have hmemC : ({ inv with card_scryfall_id := nsid } : Inventory) ∈
            updateById s.invs inv.id (fun r => { r with card_scryfall_id := nsid }) :=
          mem_updateById_self hmem rfl
        unfold edit_apply_fields
        rw [locQty_updateById _ invId (editFields req cond)
            { inv with card_scryfall_id := nsid } hidsC hmemC hinvid,
          locQty_updateById s.invs inv.id _ inv hids hmem rfl,
          contrib_editFields]
        simp only [hcontribN_inv, hcontribO_inv, hinvuser, hone h1, h1,
          Option.getD_some, contrib, matchesLoc, hcardne]
        simp [hdiff, hfoil]
        try ring
      }
  · simp only [if_neg h1]
    cases hdup : s.invs.find? (fun r => r.id != inv.id && r.user_id == user &&
        r.card_scryfall_id == nsid && r.is_foil == f &&
        r.current_deck_id == inv.current_deck_id) with
    | some dup =>
      simp only [hdup]
      refine ⟨_, rfl, ?_, ?_⟩
      all_goals {
        have hdupmem := List.mem_of_find?_eq_some hdup
        have hdupkey := List.find?_some hdup
        simp only [Bool.and_eq_true, bne_iff_ne, beq_iff_eq] at hdupkey
        obtain ⟨⟨⟨⟨hdne, hduser⟩, hdcard⟩, hdfoil⟩, hddeck⟩ := hdupkey
        have hidsB : IdsNodup (updateById s.invs inv.id
            (fun r => { r with quantity := r.quantity - 1 })) :=
          idsNodup_updateById (fun r => rfl) hids
        have hmemB : dup ∈ updateById s.invs inv.id
            (fun r => { r with quantity := r.quantity - 1 }) :=
          mem_updateById_of_ne hdupmem hdne
        have hidsB2 : IdsNodup (updateById (updateById s.invs inv.id
            (fun r => { r with quantity := r.quantity - 1 })) dup.id
            (fun r => { r with quantity := r.quantity + 1 })) :=
          idsNodup_updateById (fun r => rfl) hidsB
        rw [locQty_updateById_of_contrib_eq _ _ _ _ _ _ _ (fun r => by
            simp [contrib, matchesLoc]),
          locQty_updateById _ dup.id _ dup hidsB hmemB rfl,
          locQty_updateById s.invs inv.id _ inv hids hmem rfl]
        simp only [contrib, matchesLoc, hduser, hdcard, hdfoil, hddeck,
          hinvuser, hcardne]
        simp [hdiff, hfoil]
        try ring
      }
    | none =>
      simp only [hdup]
      refine ⟨_, rfl, ?_, ?_⟩
      all_goals {
        have hidsB : IdsNodup (updateById s.invs inv.id
            (fun r => { r with quantity := r.quantity - 1 })) :=
          idsNodup_updateById (fun r => rfl) hids
        rw [locQty_updateById_of_contrib_eq _ _ _ _ _ _ _ (fun r => by
            simp [contrib, matchesLoc]),
          locQty_append,
          locQty_updateById s.invs inv.id _ inv hids hmem rfl]
        simp only [locQty_cons, locQty_nil, newInvRow, contrib, matchesLoc,
          hinvuser, hcardne]
        simp [hdiff, hfoil]
        try ring
      }

/-- Witness for C6: substituting the printing of a quantity-3 row with an
existing duplicate at the new key — one unit moves, two stay behind. -/
theorem printing_substitution_moves_one_unit_witness :
    ∃ s', edit_card (fun _ => true) 1 1
        { quantity := 3, condition := some .NM, purchase := none,
          new_sid := some "d", is_foil := some false, is_proxy := false,
          notes := "", physical_location := none, is_sideboard := none,
          is_commander := none }
        { invs := [
            ⟨1, 1, "c", 3, false, .NM, none, 0, none, none, false, false, none, false⟩,
            ⟨2, 1, "d", 4, false, .NM, none, 0, none, none, false, false, none, false⟩],
          decks := [] } = .ok s' ∧
      locQty s'.invs 1 "d" false none =
        locQty [
          ⟨1, 1, "c", 3, false, .NM, none, 0, none, none, false, false, none, false⟩,
          ⟨2, 1, "d", 4, false, .NM, none, 0, none, none, false, false, none, false⟩]
          1 "d" false none + 1 ∧
      locQty s'.invs 1 "c" false none =
        locQty [
          ⟨1, 1, "c", 3, false, .NM, none, 0, none, none, false, false, none, false⟩,
          ⟨2, 1, "d", 4, false, .NM, none, 0, none, none, false, false, none, false⟩]
          1 "c" false none - 1 := by
  exact printing_substitution_moves_one_unit (fun _ => true) 1 1
    { quantity := 3, condition := some .NM, purchase := none,
      new_sid := some "d", is_foil := some false, is_proxy := false,
      notes := "", physical_location := none, is_sideboard := none,
      is_commander := none }
    { invs := [
        ⟨1, 1, "c", 3, false, .NM, none, 0, none, none, false, false, none, false⟩,
        ⟨2, 1, "d", 4, false, .NM, none, 0, none, none, false, false, none, false⟩],
      decks := [] }
    ⟨1, 1, "c", 3, false, .NM, none, 0, none, none, false, false, none, false⟩
    "d" false .NM (by decide) rfl rfl (by decide) rfl rfl rfl (by decide)
    (by decide) rfl (by intro h; cases h)

-- ————————————————————————————————————————————————————————————————————————
-- Identity-key uniqueness: preservation machinery
-- ————————————————————————————————————————————————————————————————————————

theorem uniqueKeys_updateById_keyPres {l : List Inventory} {i : Nat}
    {f : Inventory → Inventory} (hf : ∀ r, invKey (f r) = invKey r)
    (h : UniqueKeys l) : UniqueKeys (updateById l i f) := by
  unfold updateById UniqueKeys
  rw [List.pairwise_map]
  apply h.imp
  intro a b hab
  by_cases ha : a.id = i <;> by_cases hb : b.id = i <;>
    simp only [ha, hb, if_true, if_false, hf] <;> exact hab

theorem uniqueKeys_deleteById {l : List Inventory} {i : Nat}
    (h : UniqueKeys l) : UniqueKeys (deleteById l i) :=
  List.Pairwise.sublist (List.filter_sublist _) h

theorem uniqueKeys_append_new {l : List Inventory} {x : Inventory}
    (huniq : UniqueKeys l) (habs : ∀ r ∈ l, invKey r ≠ invKey x) :
    UniqueKeys (l ++ [x]) := by
  unfold UniqueKeys
  rw [List.pairwise_append]
  refine ⟨huniq, List.pairwise_singleton _ _, ?_⟩
  intro a ha b hb
  rcases List.mem_singleton.mp hb with rfl
  exact habs a ha

theorem uniqueKeys_updateById_newKey (l : List Inventory) (i : Nat)
    (f : Inventory → Inventory) (hids : IdsNodup l) (huniq : UniqueKeys l)
    (hsafe : ∀ r0 ∈ l, r0.id = i → ∀ r' ∈ l, r' ≠ r0 → invKey r' ≠ invKey (f r0)) :
    UniqueKeys (updateById l i f) := by
  induction l with
  | nil => exact List.Pairwise.nil
  | cons x t ih =>
    obtain ⟨hx, hids'⟩ : x.id ∉ t.map (fun r => r.id) ∧ IdsNodup t := by
      simpa [IdsNodup] using hids
    obtain ⟨hx2, huniq'⟩ := List.pairwise_cons.mp huniq
    rw [updateById_cons]
    by_cases hxi : x.id = i
    · rw [if_pos hxi]
      have ht : ∀ r ∈ t, r.id ≠ i := fun r hr hri =>
        hx (hxi ▸ hri ▸ List.mem_map_of_mem _ hr)
      rw [updateById_eq_self ht]
      apply List.pairwise_cons.mpr
      refine ⟨?_, huniq'⟩
      intro r' hr'
      have hne : r' ≠ x := fun he => ht r' hr' (he ▸ hxi)
      exact fun hk =>
        hsafe x (List.mem_cons_self _ _) hxi r' (List.mem_cons_of_mem _ hr') hne hk.symm
    · rw [if_neg hxi]
      apply List.pairwise_cons.mpr
      constructor
      · intro y hy
        rcases List.mem_map.mp hy with ⟨r, hr, hre⟩
        by_cases hri : r.id = i
        · rw [if_pos hri] at hre
          subst hre
          have hne : x ≠ r := fun he => hxi (he ▸ hri)
          exact hsafe r (List.mem_cons_of_mem _ hr) hri x (List.mem_cons_self _ _) hne
        · rw [if_neg hri] at hre
          subst hre
          exact hx2 r hr
      · apply ih hids' huniq'
        intro r0 hr0 h0 r' hr' hne
        exact hsafe r0 (List.mem_cons_of_mem _ hr0) h0 r' (List.mem_cons_of_mem _ hr') hne

theorem idsNodup_deleteById {l : List Inventory} {i : Nat} (h : IdsNodup l) :
    IdsNodup (deleteById l i) :=
  List.Nodup.sublist (List.Sublist.map _ (List.filter_sublist _)) h

theorem idsNodup_append_fresh {l : List Inventory} (h : IdsNodup l) (x : Inventory)
    (hx : ∀ r ∈ l, r.id < x.id) : IdsNodup (l ++ [x]) := by
  unfold IdsNodup
  rw [List.map_append, List.nodup_append]
  refine ⟨h, List.nodup_singleton _, ?_⟩
  intro a ha hb
  rcases List.mem_map.mp ha with ⟨r, hr, rfl⟩
  rcases List.mem_singleton.mp hb with he
  exact absurd he (Nat.ne_of_lt (hx r hr))

theorem mem_updateById_elim {l : List Inventory} {i : Nat}
    {f : Inventory → Inventory} {x : Inventory} (hx : x ∈ updateById l i f) :
    ∃ r ∈ l, x = (if r.id = i then f r else r) := by
  rcases List.mem_map.mp hx with ⟨r, hr, he⟩
  exact ⟨r, hr, he.symm⟩

theorem idsNodup_updateById2 {l : List Inventory} {i j : Nat}
    {f g : Inventory → Inventory} (hf : ∀ r, (f r).id = r.id)
    (hg : ∀ r, (g r).id = r.id) (hids : IdsNodup l) :
    IdsNodup (updateById (updateById l i f) j g) :=
  idsNodup_updateById hg (idsNodup_updateById hf hids)

/-- Keys reachable in an id-targeted, key-preserving update are keys of the
original list. -/
theorem key_of_mem_updateById {l : List Inventory} {i : Nat}
    {f : Inventory → Inventory} {x : Inventory} (hx : x ∈ updateById l i f)
    (hf : ∀ r, invKey (f r) = invKey r) : ∃ r ∈ l, invKey x = invKey r := by
  rcases mem_updateById_elim hx with ⟨r, hr, rfl⟩
  refine ⟨r, hr, ?_⟩
  by_cases h : r.id = i <;> simp [h, hf]

theorem id_of_mem_updateById {l : List Inventory} {i : Nat}
    {f : Inventory → Inventory} {x : Inventory} (hx : x ∈ updateById l i f)
    (hf : ∀ r, (f r).id = r.id) : ∃ r ∈ l, x.id = r.id := by
  rcases mem_updateById_elim hx with ⟨r, hr, rfl⟩
  refine ⟨r, hr, ?_⟩
  by_cases h : r.id = i <;> simp [h, hf]

theorem add_card_inv (cc : String → String) (user deckId invId : Nat) (qty : Int)
    (s s' : St) (hids : IdsNodup s.invs) (huniq : UniqueKeys s.invs)
    (h : add_card cc user deckId invId qty s = .ok s') :
    IdsNodup s'.invs ∧ UniqueKeys s'.invs := by
  unfold add_card at h
  cases hdeck : s.decks.find? (fun dk => dk.id == deckId) with
  | none => rw [hdeck] at h; cases h
  | some dk =>
  rw [hdeck] at h
  by_cases hq1 : qty < 1
  · rw [if_pos hq1] at h; cases h
  rw [if_neg hq1] at h
  cases hbox : s.invs.find? (fun r => r.id == invId && r.user_id == user &&
      r.current_deck_id == none) with
  | none => rw [hbox] at h; cases h
  | some box =>
  rw [hbox] at h
  simp only [] at h
  by_cases hlt : box.quantity < qty
  · rw [if_pos hlt] at h; cases h
  rw [if_neg hlt] at h
  have hboxmem := List.mem_of_find?_eq_some hbox
  have hboxkey := List.find?_some hbox
  simp only [Bool.and_eq_true, beq_iff_eq] at hboxkey
  obtain ⟨⟨hbid, hbuser⟩, hbdeck⟩ := hboxkey
  cases hdinv : s.invs.find? (fun r => r.user_id == user &&
      r.card_scryfall_id == box.card_scryfall_id &&
      r.is_foil == box.is_foil && r.current_deck_id == some deckId) with
  | some dinv =>
    rw [hdinv] at h
    by_cases hfull : qty = box.quantity
    · rw [if_pos hfull] at h
      injection h with h2
      subst h2
      exact ⟨idsNodup_deleteById (idsNodup_updateById (fun r => rfl) hids),
        uniqueKeys_deleteById (uniqueKeys_updateById_keyPres (fun r => rfl) huniq)⟩
    · rw [if_neg hfull] at h
      injection h with h2
      subst h2
      exact ⟨idsNodup_updateById2 (fun r => rfl) (fun r => rfl) hids,
        uniqueKeys_updateById_keyPres (fun r => rfl)
          (uniqueKeys_updateById_keyPres (fun r => rfl) huniq)⟩
  | none =>
    rw [hdinv] at h
    have habs := List.find?_eq_none.mp hdinv
    by_cases hfull : qty = box.quantity
    · rw [if_pos hfull] at h
      injection h with h2
      subst h2
      refine ⟨idsNodup_updateById (fun r => rfl) hids, ?_⟩
      apply uniqueKeys_updateById_newKey _ _ _ hids huniq
      intro r0 hr0 h0 r' hr' hne hk
      have hr0box : r0 = box := List.inj_on_of_nodup_map hids hr0 hboxmem h0
      subst hr0box
      simp only [invKey, Prod.mk.injEq] at hk
      obtain ⟨hku, hkc, hkf, hkd, hks⟩ := hk
      exact habs r' hr' (by simp [hku, hkc, hkf, hkd, hbuser])
    · rw [if_neg hfull] at h
      injection h with h2
      subst h2
      constructor
      · show IdsNodup ((updateById s.invs box.id
            (fun r => { r with quantity := r.quantity - qty })) ++
          [newInvRow (freshId s.invs) user box.card_scryfall_id qty box.is_foil
            box.condition (some deckId) none])
        apply idsNodup_append_fresh
          (@idsNodup_updateById s.invs box.id
            (fun r => { r with quantity := r.quantity - qty }) (fun r => rfl) hids)
        intro r hr
        rcases id_of_mem_updateById hr (fun r => rfl) with ⟨r2, hr2, he⟩
        rw [he, newInvRow]
        exact freshId_gt s.invs r2 hr2
      · show UniqueKeys ((updateById s.invs box.id
            (fun r => { r with quantity := r.quantity - qty })) ++
          [newInvRow (freshId s.invs) user box.card_scryfall_id qty box.is_foil
            box.condition (some deckId) none])
        apply uniqueKeys_append_new
          (@uniqueKeys_updateById_keyPres s.invs box.id
            (fun r => { r with quantity := r.quantity - qty }) (fun r => rfl) huniq)
        intro r hr hk
        rcases key_of_mem_updateById hr (fun r => rfl) with ⟨r2, hr2, he⟩
        rw [he] at hk
        simp only [invKey, newInvRow, Prod.mk.injEq] at hk
        obtain ⟨hku, hkc, hkf, hkd, hks⟩ := hk
        exact habs r2 hr2 (by simp [hku, hkc, hkf, hkd])

theorem remove_card_inv (cc : String → String) (user deckId invId : Nat)
    (qtyReq : Option Int) (s s' : St) (hids : IdsNodup s.invs)
    (huniq : UniqueKeys s.invs)
    (h : remove_card cc user deckId invId qtyReq s = .ok s') :
    IdsNodup s'.invs ∧ UniqueKeys s'.invs := by
  unfold remove_card at h
  cases hdeck : s.decks.find? (fun dk => dk.id == deckId) with
  | none => rw [hdeck] at h; cases h
  | some dk =>
  rw [hdeck] at h
  cases hinv : s.invs.find? (fun r => r.id == invId && r.user_id == user &&
      r.current_deck_id == some deckId) with
  | none => rw [hinv] at h; cases h
  | some dinv =>
  rw [hinv] at h
  simp only [] at h
  have hmemd := List.mem_of_find?_eq_some hinv
  have hkeyd := List.find?_some hinv
  simp only [Bool.and_eq_true, beq_iff_eq] at hkeyd
  obtain ⟨⟨hdid, hduser⟩, hddeck⟩ := hkeyd
  cases hbox : s.invs.find? (fun r => r.user_id == user &&
      r.card_scryfall_id == dinv.card_scryfall_id &&
      r.is_foil == dinv.is_foil && r.current_deck_id == none) with
  | some binv =>
    rw [hbox] at h
    split at h
    · injection h with h2
      subst h2
      exact ⟨idsNodup_deleteById (idsNodup_updateById (fun r => rfl) hids),
        uniqueKeys_deleteById (uniqueKeys_updateById_keyPres (fun r => rfl) huniq)⟩
    · injection h with h2
      subst h2
      exact ⟨idsNodup_updateById2 (fun r => rfl) (fun r => rfl) hids,
        uniqueKeys_updateById_keyPres (fun r => rfl)
          (uniqueKeys_updateById_keyPres (fun r => rfl) huniq)⟩
  | none =>
    rw [hbox] at h
    have habs := List.find?_eq_none.mp hbox
    split at h
    · injection h with h2
      subst h2
      refine ⟨idsNodup_updateById (fun r => rfl) hids, ?_⟩
      apply uniqueKeys_updateById_newKey _ _ _ hids huniq
      intro r0 hr0 h0 r' hr' hne hk
      have hr0d : r0 = dinv := List.inj_on_of_nodup_map hids hr0 hmemd h0
      subst hr0d
      simp only [invKey, Prod.mk.injEq] at hk
      obtain ⟨hku, hkc, hkf, hkd, hks⟩ := hk
      exact habs r' hr' (by simp [hku, hkc, hkf, hkd, hduser])
    · rename_i hcnd
      injection h with h2
      subst h2
      clear hcnd
      refine ⟨?_, ?_⟩
      · show IdsNodup ((updateById s.invs dinv.id
            (fun r => { r with quantity := r.quantity - (min (match qtyReq with | some q => if q < 1 then dinv.quantity else q | none => dinv.quantity) dinv.quantity) })) ++
          [newInvRow (freshId s.invs) user dinv.card_scryfall_id
            (min (match qtyReq with | some q => if q < 1 then dinv.quantity else q | none => dinv.quantity) dinv.quantity)
            dinv.is_foil dinv.condition none none])
        apply idsNodup_append_fresh (@idsNodup_updateById s.invs dinv.id
          (fun r => { r with quantity := r.quantity - (min (match qtyReq with | some q => if q < 1 then dinv.quantity else q | none => dinv.quantity) dinv.quantity) })
          (fun r => rfl) hids)
        intro r hr
        rcases id_of_mem_updateById hr (fun r => rfl) with ⟨r2, hr2, he⟩
        rw [he, newInvRow]
        exact freshId_gt s.invs r2 hr2
      · show UniqueKeys ((updateById s.invs dinv.id
            (fun r => { r with quantity := r.quantity - (min (match qtyReq with | some q => if q < 1 then dinv.quantity else q | none => dinv.quantity) dinv.quantity) })) ++
          [newInvRow (freshId s.invs) user dinv.card_scryfall_id
            (min (match qtyReq with | some q => if q < 1 then dinv.quantity else q | none => dinv.quantity) dinv.quantity)
            dinv.is_foil dinv.condition none none])
        apply uniqueKeys_append_new (@uniqueKeys_updateById_keyPres s.invs dinv.id
          (fun r => { r with quantity := r.quantity - (min (match qtyReq with | some q => if q < 1 then dinv.quantity else q | none => dinv.quantity) dinv.quantity) })
          (fun r => rfl) huniq)
        intro r hr hk
        rcases key_of_mem_updateById hr (fun r => rfl) with ⟨r2, hr2, he⟩
        rw [he] at hk
        simp only [invKey, newInvRow, Prod.mk.injEq] at hk
        obtain ⟨hku, hkc, hkf, hkd, hks⟩ := hk
        exact habs r2 hr2 (by simp [hku, hkc, hkf, hkd])

theorem move_card_core_inv (cc : String → String) (user : Nat) (src : Inventory)
    (target : Option Nat) (qtyReq : Option Int) (s : St)
    (hids : IdsNodup s.invs) (huniq : UniqueKeys s.invs)
    (hmems : src ∈ s.invs) (hsuser : src.user_id = user) :
    IdsNodup (move_card_core cc user src target qtyReq s).invs ∧
    UniqueKeys (move_card_core cc user src target qtyReq s).invs := by
  unfold move_card_core
  cases hex : s.invs.find? (fun r => r.user_id == user &&
      r.card_scryfall_id == src.card_scryfall_id &&
      r.is_foil == src.is_foil && r.current_deck_id == target) with
  | some ex =>
    simp only [hex]
    by_cases hfull : src.quantity ≤ max 1 (min (qtyReq.getD src.quantity) src.quantity)
    · simp only [if_pos hfull]
      exact ⟨idsNodup_deleteById (idsNodup_updateById (fun r => rfl) hids),
        uniqueKeys_deleteById (uniqueKeys_updateById_keyPres (fun r => rfl) huniq)⟩
    · simp only [if_neg hfull]
      exact ⟨idsNodup_updateById2 (fun r => rfl) (fun r => rfl) hids,
        uniqueKeys_updateById_keyPres (fun r => rfl)
          (uniqueKeys_updateById_keyPres (fun r => rfl) huniq)⟩
  | none =>
    simp only [hex]
    have habs := List.find?_eq_none.mp hex
    by_cases hfull : src.quantity ≤ max 1 (min (qtyReq.getD src.quantity) src.quantity)
    · simp only [if_pos hfull]
      refine ⟨idsNodup_updateById (fun r => rfl) hids, ?_⟩
      apply uniqueKeys_updateById_newKey _ _ _ hids huniq
      intro r0 hr0 h0 r' hr' hne hk
      have hr0s : r0 = src := List.inj_on_of_nodup_map hids hr0 hmems h0
      subst hr0s
      simp only [invKey, Prod.mk.injEq] at hk
      obtain ⟨hku, hkc, hkf, hkd, hks⟩ := hk
      exact habs r' hr' (by simp [hku, hkc, hkf, hkd, hsuser])
    · simp only [if_neg hfull]
      refine ⟨?_, ?_⟩
      · show IdsNodup ((updateById s.invs src.id
            (fun r => { r with quantity := r.quantity - (max 1 (min (qtyReq.getD src.quantity) src.quantity)) })) ++
          [newInvRow (freshId s.invs) user src.card_scryfall_id
            (max 1 (min (qtyReq.getD src.quantity) src.quantity))
            src.is_foil src.condition target none])
        apply idsNodup_append_fresh (@idsNodup_updateById s.invs src.id
          (fun r => { r with quantity := r.quantity - (max 1 (min (qtyReq.getD src.quantity) src.quantity)) })
          (fun r => rfl) hids)
        intro r hr
        rcases id_of_mem_updateById hr (fun r => rfl) with ⟨r2, hr2, he⟩
        rw [he, newInvRow]
        exact freshId_gt s.invs r2 hr2
      · show UniqueKeys ((updateById s.invs src.id
            (fun r => { r with quantity := r.quantity - (max 1 (min (qtyReq.getD src.quantity) src.quantity)) })) ++
          [newInvRow (freshId s.invs) user src.card_scryfall_id
            (max 1 (min (qtyReq.getD src.quantity) src.quantity))
            src.is_foil src.condition target none])
        apply uniqueKeys_append_new (@uniqueKeys_updateById_keyPres s.invs src.id
          (fun r => { r with quantity := r.quantity - (max 1 (min (qtyReq.getD src.quantity) src.quantity)) })
          (fun r => rfl) huniq)
        intro r hr hk
        rcases key_of_mem_updateById hr (fun r => rfl) with ⟨r2, hr2, he⟩
        rw [he] at hk
        simp only [invKey, newInvRow, Prod.mk.injEq] at hk
        obtain ⟨hku, hkc, hkf, hkd, hks⟩ := hk
        exact habs r2 hr2 (by simp [hku, hkc, hkf, hkd])

theorem move_card_inv (cc : String → String) (user invId : Nat)
    (targetReq : Option Nat) (qtyReq : Option Int) (s s' : St)
    (hids : IdsNodup s.invs) (huniq : UniqueKeys s.invs)
    (h : move_card cc user invId targetReq qtyReq s = .ok s') :
    IdsNodup s'.invs ∧ UniqueKeys s'.invs := by
  unfold move_card at h
  cases hsrc : s.invs.find? (fun r => r.id == invId && r.user_id == user) with
  | none => rw [hsrc] at h; cases h
  | some src =>
  rw [hsrc] at h
  have hmems := List.mem_of_find?_eq_some hsrc
  have hkeys := List.find?_some hsrc
  simp only [Bool.and_eq_true, beq_iff_eq] at hkeys
  obtain ⟨hsid, hsuser⟩ := hkeys
  cases targetReq with
  | none =>
    injection h with h2
    subst h2
    exact move_card_core_inv cc user src none qtyReq s hids huniq hmems hsuser
  | some t =>
    simp only [] at h
    by_cases ht : t = 0
    · rw [if_pos ht] at h
      injection h with h2
      subst h2
      exact move_card_core_inv cc user src none qtyReq s hids huniq hmems hsuser
    · rw [if_neg ht] at h
      cases hdk : s.decks.find? (fun dk => dk.id == t) with
      | none => rw [hdk] at h; cases h
      | some dk =>
        rw [hdk] at h
        injection h with h2
        subst h2
        exact move_card_core_inv cc user src (some t) qtyReq s hids huniq hmems hsuser

theorem transfer_core_inv (cc : String → String) (actor : Nat) (src : Inventory)
    (destDeck : Option Nat) (qtyIn : Int) (s : St)
    (hids : IdsNodup s.invs) (huniq : UniqueKeys s.invs)
    (hmems : src ∈ s.invs) :
    IdsNodup (transfer_core cc actor src destDeck qtyIn s).invs ∧
    UniqueKeys (transfer_core cc actor src destDeck qtyIn s).invs := by
  unfold transfer_core
  have hremIds : IdsNodup (if src.quantity ≤ min qtyIn src.quantity then
      deleteById s.invs src.id
    else updateById s.invs src.id
      (fun r => { r with quantity := r.quantity - min qtyIn src.quantity })) := by
    split
    · exact idsNodup_deleteById hids
    · exact idsNodup_updateById (fun r => rfl) hids
  have hremUniq : UniqueKeys (if src.quantity ≤ min qtyIn src.quantity then
      deleteById s.invs src.id
    else updateById s.invs src.id
      (fun r => { r with quantity := r.quantity - min qtyIn src.quantity })) := by
    split
    · exact uniqueKeys_deleteById huniq
    · exact uniqueKeys_updateById_keyPres (fun r => rfl) huniq
  have hremSub : ∀ r ∈ (if src.quantity ≤ min qtyIn src.quantity then
      deleteById s.invs src.id
    else updateById s.invs src.id
      (fun r => { r with quantity := r.quantity - min qtyIn src.quantity })),
      ∃ r2 ∈ s.invs, r.id = r2.id ∧ invKey r = invKey r2 := by
    intro r hr
    by_cases hc : src.quantity ≤ min qtyIn src.quantity
    · rw [if_pos hc] at hr
      exact ⟨r, List.mem_of_mem_filter hr, rfl, rfl⟩
    · rw [if_neg hc] at hr
      rcases mem_updateById_elim hr with ⟨r2, hr2, rfl⟩
      refine ⟨r2, hr2, ?_, ?_⟩ <;> by_cases h2 : r2.id = src.id <;>
        simp [h2, invKey]
  cases hex : s.invs.find? (fun r => r.user_id == actor &&
      r.card_scryfall_id == src.card_scryfall_id &&
      r.is_foil == src.is_foil && r.current_deck_id == destDeck) with
  | some ex =>
    simp only [hex]
    exact ⟨idsNodup_updateById (fun r => rfl) hremIds,
      uniqueKeys_updateById_keyPres (fun r => rfl) hremUniq⟩
  | none =>
    simp only [hex]
    have habs := List.find?_eq_none.mp hex
    refine ⟨?_, ?_⟩
    · apply idsNodup_append_fresh hremIds
      intro r hr
      rcases hremSub r hr with ⟨r2, hr2, hid2, _⟩
      rw [hid2, newInvRow]
      exact freshId_gt s.invs r2 hr2
    · apply uniqueKeys_append_new hremUniq
      intro r hr hk
      rcases hremSub r hr with ⟨r2, hr2, _, hkey2⟩
      rw [hkey2] at hk
      simp only [invKey, newInvRow, Prod.mk.injEq] at hk
      obtain ⟨hku, hkc, hkf, hkd, hks⟩ := hk
      exact habs r2 hr2 (by simp [hku, hkc, hkf, hkd])

theorem transfer_inv (cc : String → String) (actor invId : Nat)
    (deckReq : Option Nat) (qtyIn : Int) (canView : Bool) (s s' : St)
    (hids : IdsNodup s.invs) (huniq : UniqueKeys s.invs)
    (h : transfer cc actor invId deckReq qtyIn canView s = .ok s') :
    IdsNodup s'.invs ∧ UniqueKeys s'.invs := by
  unfold transfer at h
  by_cases hq : qtyIn < 1
  · rw [if_pos hq] at h; cases h
  rw [if_neg hq] at h
  cases hsrc : s.invs.find? (fun r => r.id == invId && r.current_deck_id == none) with
  | none => rw [hsrc] at h; cases h
  | some src =>
  rw [hsrc] at h
  simp only [] at h
  have hmems := List.mem_of_find?_eq_some hsrc
  by_cases hself : actor == src.user_id
  · rw [if_pos hself] at h; cases h
  rw [if_neg hself] at h
  by_cases hview : !canView
  · rw [if_pos hview] at h; cases h
  rw [if_neg hview] at h
  cases deckReq with
  | none =>
    injection h with h2
    subst h2
    exact transfer_core_inv cc actor src none qtyIn s hids huniq hmems
  | some t =>
    simp only [] at h
    by_cases ht : t = 0
    · rw [if_pos ht] at h
      injection h with h2
      subst h2
      exact transfer_core_inv cc actor src none qtyIn s hids huniq hmems
    · rw [if_neg ht] at h
      cases hdk : s.decks.find? (fun dk => dk.id == t && dk.user_id == actor) with
      | none => rw [hdk] at h; cases h
      | some dk =>
        rw [hdk] at h
        injection h with h2
        subst h2
        exact transfer_core_inv cc actor src (some t) qtyIn s hids huniq hmems

theorem box_import_line_inv2 (user : Nat) (sid : String) (qty : Int)
    (isFoil : Bool) (loc : Option String) (invs : List Inventory)
    (hids : IdsNodup invs) (huniq : UniqueKeys invs) :
    IdsNodup (box_import_line user sid qty isFoil loc invs) ∧
    UniqueKeys (box_import_line user sid qty isFoil loc invs) := by
  unfold box_import_line
  cases hfind : invs.find? (fun r => r.user_id == user && r.card_scryfall_id == sid &&
      r.is_foil == isFoil && r.current_deck_id == none) with
  | some e =>
    simp only [hfind]
    refine ⟨idsNodup_updateById (fun r => by split <;> rfl) hids,
      uniqueKeys_updateById_keyPres (fun r => by split <;> rfl) huniq⟩
  | none =>
    simp only [hfind]
    have habs := List.find?_eq_none.mp hfind
    refine ⟨?_, ?_⟩
    · apply idsNodup_append_fresh hids
      intro r hr
      rw [newInvRow]
      exact freshId_gt invs r hr
    · apply uniqueKeys_append_new huniq
      intro r hr hk
      simp only [invKey, newInvRow, Prod.mk.injEq] at hk
      obtain ⟨hku, hkc, hkf, hkd, hks⟩ := hk
      exact habs r hr (by simp [hku, hkc, hkf, hkd])

theorem upsert_deck_row_inv (user deckId : Nat) (sid : String) (qty : Int)
    (isFoil isSb : Bool) (invs : List Inventory)
    (hids : IdsNodup invs) (huniq : UniqueKeys invs) :
    IdsNodup (upsert_deck_row user deckId sid qty isFoil isSb invs) ∧
    UniqueKeys (upsert_deck_row user deckId sid qty isFoil isSb invs) := by
  unfold upsert_deck_row
  cases hfind : invs.find? (fun r => r.user_id == user && r.card_scryfall_id == sid &&
      r.is_foil == isFoil && r.current_deck_id == some deckId &&
      r.is_sideboard == isSb) with
  | some e =>
    simp only [hfind]
    exact ⟨idsNodup_updateById (fun r => rfl) hids,
      uniqueKeys_updateById_keyPres (fun r => rfl) huniq⟩
  | none =>
    simp only [hfind]
    have habs := List.find?_eq_none.mp hfind
    refine ⟨?_, ?_⟩
    · apply idsNodup_append_fresh hids
      intro r hr
      show r.id < (freshId invs)
      exact freshId_gt invs r hr
    · apply uniqueKeys_append_new huniq
      intro r hr hk
      simp only [invKey, newInvRow, Prod.mk.injEq] at hk
      obtain ⟨hku, hkc, hkf, hkd, hks⟩ := hk
      exact habs r hr (by simp [hku, hkc, hkf, hkd, hks])

/-- **C2 amended** — After any sequence of movement and import operations
(`add_card`, `remove_card`, `move_card`, `transfer`, the per-line Box import,
the deck-import upsert) no two OwnershipRecords share the identity key
`(user, printing, foil, deck, sideboard)`: every such operation preserves
pairwise key-distinctness (and primary-key distinctness) of the ledger, each
merging quantities instead of creating a second row.  Quantity-and-flag
edits (`edit_card`) and `delete_deck` are *not* in this set: they do not
merge and can produce two records with one key (counterexample
`uniqueness_flag_edit_breaks`). -/
theorem uniqueness_preserved_by_movement_ops (cc : String → String) (op : MoveOp)
    (s : St) (hids : IdsNodup s.invs) (huniq : UniqueKeys s.invs) :
    IdsNodup (applyOp cc op s).invs ∧ UniqueKeys (applyOp cc op s).invs := by
  cases op with
  | add u d i q =>
    simp only [applyOp]
    cases h : add_card cc u d i q s with
    | ok s2 => exact add_card_inv cc u d i q s s2 hids huniq h
    | error e => exact ⟨hids, huniq⟩
  | remove u d i q =>
    simp only [applyOp]
    cases h : remove_card cc u d i q s with
    | ok s2 => exact remove_card_inv cc u d i q s s2 hids huniq h
    | error e => exact ⟨hids, huniq⟩
  | move u i t q =>
    simp only [applyOp]
    cases h : move_card cc u i t q s with
    | ok s2 => exact move_card_inv cc u i t q s s2 hids huniq h
    | error e => exact ⟨hids, huniq⟩
  | xfer a i d q v =>
    simp only [applyOp]
    cases h : transfer cc a i d q v s with
    | ok s2 => exact transfer_inv cc a i d q v s s2 hids huniq h
    | error e => exact ⟨hids, huniq⟩
  | importBox u sid q fo loc =>
    simp only [applyOp]
    exact box_import_line_inv2 u sid q fo loc s.invs hids huniq
  | importDeck u d sid q fo sb =>
    simp only [applyOp]
    exact upsert_deck_row_inv u d sid q fo sb s.invs hids huniq

/-- Witness for the C2 amended theorem: a full `add_card` merge into an
existing deck row on a concrete two-row ledger. -/
theorem uniqueness_preserved_by_movement_ops_witness :
    IdsNodup (applyOp (fun _ => "") (MoveOp.add 1 7 1 1)
      { invs := [
          ⟨1, 1, "c", 1, false, .NM, none, 0, none, none, false, false, none, false⟩,
          ⟨2, 1, "c", 2, false, .NM, none, 0, none, some 7, false, false, none, false⟩],
        decks := [⟨7, 1, ""⟩] }).invs ∧
    UniqueKeys (applyOp (fun _ => "") (MoveOp.add 1 7 1 1)
      { invs := [
          ⟨1, 1, "c", 1, false, .NM, none, 0, none, none, false, false, none, false⟩,
          ⟨2, 1, "c", 2, false, .NM, none, 0, none, some 7, false, false, none, false⟩],
        decks := [⟨7, 1, ""⟩] }).invs :=
  uniqueness_preserved_by_movement_ops (fun _ => "") (MoveOp.add 1 7 1 1)
    { invs := [
        ⟨1, 1, "c", 1, false, .NM, none, 0, none, none, false, false, none, false⟩,
        ⟨2, 1, "c", 2, false, .NM, none, 0, none, some 7, false, false, none, false⟩],
      decks := [⟨7, 1, ""⟩] }
    (by decide) (by decide)

-- ————————————————————————————————————————————————————————————————————————
-- Tokenizer scan lemmas (foil patterns)
-- ————————————————————————————————————————————————————————————————————————

theorem spellsFoil_imp (k : List Char → Bool) (l : List Char)
    (h : spellsFoil k l = true) : spellsFoilAny l = true := by
  rcases l with _ | ⟨a, _ | ⟨b, _ | ⟨c, _ | ⟨d, t⟩⟩⟩⟩ <;>
    simp [spellsFoil, spellsFoilAny, headIs] at h ⊢ <;> tauto

theorem foilMatchAt_mono {l : List Char} (b : Bool)
    (h : foilMatchAt false l = none) : foilMatchAt b l = none := by
  by_cases h1 : isStarF l = true
  · simp [foilMatchAt, h1] at h
  by_cases h2 : isBrFoil '(' ')' l = true
  · simp [foilMatchAt, h1, h2] at h
  by_cases h3 : isBrFoil '[' ']' l = true
  · simp [foilMatchAt, h1, h2, h3] at h
  by_cases h4 : isBrFoil '<' '>' l = true
  · simp [foilMatchAt, h1, h2, h3, h4] at h
  by_cases h5 : isPlusFoil l = true
  · simp [foilMatchAt, h1, h2, h3, h4, h5] at h
  by_cases h6 : isBareFoil false l = true
  · simp [foilMatchAt, h1, h2, h3, h4, h5, h6] at h
  · have h6b : isBareFoil b l = false := by
      cases b
      · simpa using h6
      · simp [isBareFoil]
    simp only [Bool.not_eq_true] at h1 h2 h3 h4 h5
    simp [foilMatchAt, h1, h2, h3, h4, h5, h6b]

theorem foilMatchAt_none_of_neverStarts (b : Bool) (c : Char) (t : List Char)
    (h : neverStarts c = true) : foilMatchAt b (c :: t) = none := by
  have hks : ¬(c = '*') ∧ ¬(c = '(') ∧ ¬(c = '[') ∧ ¬(c = '<') ∧ ¬(c = '+') ∧
      ¬(c = 'f') ∧ ¬(c = 'F') := by
    simpa [neverStarts, chF, not_or, and_assoc] using h
  have hstar : isStarF (c :: t) = false := by simp [isStarF, headIs, hks.1]
  have hp1 : isBrFoil '(' ')' (c :: t) = false := by simp [isBrFoil, headIs, hks.2.1]
  have hp2 : isBrFoil '[' ']' (c :: t) = false := by simp [isBrFoil, headIs, hks.2.2.1]
  have hp3 : isBrFoil '<' '>' (c :: t) = false := by
    simp [isBrFoil, headIs, hks.2.2.2.1]
  have hp4 : isPlusFoil (c :: t) = false := by
    simp [isPlusFoil, headIs, hks.2.2.2.2.1]
  have hp5 : isBareFoil b (c :: t) = false := by
    simp [isBareFoil, spellsFoil, headIs, chF, hks.2.2.2.2.2.1, hks.2.2.2.2.2.2]
  simp [foilMatchAt, hstar, hp1, hp2, hp3, hp4, hp5]

theorem noFoilCI_spec {l : List Char} (h : noFoilCI l = true) :
    ∀ s : List Char, s <:+ l → spellsFoilAny s = false := by
  induction l with
  | nil =>
    intro s hs
    rw [List.suffix_nil.mp hs]
    rfl
  | cons c cs ih =>
    intro s hs
    simp only [noFoilCI, Bool.and_eq_true, Bool.not_eq_true'] at h
    obtain ⟨t, ht⟩ := hs
    cases t with
    | nil =>
      simp only [List.nil_append] at ht
      rw [ht]
      exact h.1
    | cons x xs =>
      simp only [List.cons_append] at ht
      injection ht with he1 he2
      exact ih h.2 s ⟨xs, he2⟩

theorem spells_cross {l : List Char} (d : Char) (t : List Char)
    (hl : noFoilCI l = true) (hd : isFoilLetter d = false) :
    ∀ s : List Char, s <:+ l → spellsFoilAny (s ++ d :: t) = false := by
  have hdp : ¬(d = 'f') ∧ ¬(d = 'F') ∧ ¬(d = 'o') ∧ ¬(d = 'O') ∧ ¬(d = 'i') ∧
      ¬(d = 'I') ∧ ¬(d = 'l') ∧ ¬(d = 'L') := by
    simpa [isFoilLetter, chF, chO, chI, chL, not_or, and_assoc] using hd
  intro s hs
  rcases s with _ | ⟨a, _ | ⟨b, _ | ⟨c, _ | ⟨e, s2⟩⟩⟩⟩
  · simp [spellsFoilAny, spellsFoil, headIs, chF, hdp.1, hdp.2.1]
  · simp [spellsFoilAny, spellsFoil, headIs, chO, hdp.2.2.1, hdp.2.2.2.1]
  · simp [spellsFoilAny, spellsFoil, headIs, chI, hdp.2.2.2.2.1, hdp.2.2.2.2.2.1]
  · simp [spellsFoilAny, spellsFoil, headIs, chL, hdp.2.2.2.2.2.2.1,
      hdp.2.2.2.2.2.2.2]
  · have h5 := noFoilCI_spec hl _ hs
    have heq : spellsFoilAny ((a :: b :: c :: e :: s2) ++ d :: t) =
        spellsFoilAny (a :: b :: c :: e :: s2) := by
      simp [spellsFoilAny, spellsFoil, headIs]
    rw [heq]
    exact h5

theorem foilMatchAt_none_of_field (b : Bool) (c : Char) (t : List Char)
    (hok : nameOkChar c = true) (hsp : spellsFoilAny (c :: t) = false) :
    foilMatchAt b (c :: t) = none := by
  have hks : ¬(c = '*') ∧ ¬(c = '(') ∧ ¬(c = '[') ∧ ¬(c = '<') ∧ ¬(c = '+') := by
    simpa [nameOkChar, not_or, and_assoc] using hok
  have hbd : spellsFoil bdryAfter (c :: t) = false := by
    cases hx : spellsFoil bdryAfter (c :: t)
    · rfl
    · exact absurd (spellsFoil_imp _ _ hx) (by simp [hsp])
  have hstar : isStarF (c :: t) = false := by simp [isStarF, headIs, hks.1]
  have hp1 : isBrFoil '(' ')' (c :: t) = false := by simp [isBrFoil, headIs, hks.2.1]
  have hp2 : isBrFoil '[' ']' (c :: t) = false := by simp [isBrFoil, headIs, hks.2.2.1]
  have hp3 : isBrFoil '<' '>' (c :: t) = false := by
    simp [isBrFoil, headIs, hks.2.2.2.1]
  have hp4 : isPlusFoil (c :: t) = false := by
    simp [isPlusFoil, headIs, hks.2.2.2.2]
  have hp5 : isBareFoil b (c :: t) = false := by simp [isBareFoil, hbd]
  simp [foilMatchAt, hstar, hp1, hp2, hp3, hp4, hp5]

theorem foilMatchAt_none_at_paren (b : Bool) (s r2 : List Char)
    (hs : noFoilCI s = true) :
    foilMatchAt b ('(' :: (s ++ ')' :: r2)) = none := by
  have hsp : spellsFoilAny (s ++ ')' :: r2) = false :=
    spells_cross ')' r2 hs (by decide) s (List.suffix_refl s)
  have hin : spellsFoil (headIs (fun c => c = ')') (fun _ => true))
      (s ++ ')' :: r2) = false := by
    cases hx : spellsFoil (headIs (fun c => c = ')') (fun _ => true)) (s ++ ')' :: r2)
    · rfl
    · exact absurd (spellsFoil_imp _ _ hx) (by simp [hsp])
  have hpar : isBrFoil '(' ')' ('(' :: (s ++ ')' :: r2)) = false := by
    simp [isBrFoil, headIs, hin]
  have hbd : isBareFoil b ('(' :: (s ++ ')' :: r2)) = false := by
    simp [isBareFoil, spellsFoil, headIs, chF]
  have hstar : isStarF ('(' :: (s ++ ')' :: r2)) = false := by
    simp [isStarF, headIs]
  have hp2 : isBrFoil '[' ']' ('(' :: (s ++ ')' :: r2)) = false := by
    simp [isBrFoil, headIs]
  have hp3 : isBrFoil '<' '>' ('(' :: (s ++ ')' :: r2)) = false := by
    simp [isBrFoil, headIs]
  have hp4 : isPlusFoil ('(' :: (s ++ ')' :: r2)) = false := by
    simp [isPlusFoil, headIs]
  simp [foilMatchAt, hstar, hpar, hp2, hp3, hp4, hbd]

theorem cleanWith_cons (r : List Char) (c : Char) (cs : List Char)
    (h1 : foilMatchAt false (c :: (cs ++ r)) = none)
    (h2 : cleanWith r cs = true) : cleanWith r (c :: cs) = true := by
  simp [cleanWith, h1, h2]

theorem cleanWith_append_safe (r : List Char) (l1 l2 : List Char)
    (h1 : ∀ c ∈ l1, neverStarts c = true)
    (h2 : cleanWith r l2 = true) : cleanWith r (l1 ++ l2) = true := by
  induction l1 with
  | nil => simpa using h2
  | cons c cs ih =>
    have hm : foilMatchAt false (c :: ((cs ++ l2) ++ r)) = none :=
      foilMatchAt_none_of_neverStarts false c _ (h1 c (by simp))
    exact cleanWith_cons r c (cs ++ l2) hm (ih (fun x hx => h1 x (by simp [hx])))

theorem cleanWith_field (r : List Char) (l rest : List Char)
    (hok : ∀ c ∈ l, nameOkChar c = true) (hnf : noFoilCI l = true)
    (hcont : rest ++ r = [] ∨ ∃ d t2, rest ++ r = d :: t2 ∧ isFoilLetter d = false)
    (h2 : cleanWith r rest = true) : cleanWith r (l ++ rest) = true := by
  induction l with
  | nil => simpa using h2
  | cons c cs ih =>
    have hpair : spellsFoilAny (c :: cs) = false ∧ noFoilCI cs = true := by
      simpa [noFoilCI] using hnf
    have hnf2 : noFoilCI cs = true := hpair.2
    have hsp0 : spellsFoilAny (c :: cs) = false := hpair.1
    have hsp : spellsFoilAny ((c :: cs) ++ (rest ++ r)) = false := by
      rcases hcont with hc0 | ⟨d, t2, hdt, hd⟩
      · rw [hc0, List.append_nil]
        exact hsp0
      · rw [hdt]
        exact spells_cross d t2 hnf hd (c :: cs) (List.suffix_refl _)
    have hm : foilMatchAt false (c :: ((cs ++ rest) ++ r)) = none := by
      have hx := foilMatchAt_none_of_field false c (cs ++ (rest ++ r))
        (hok c (by simp)) (by simpa [List.append_assoc] using hsp)
      simpa [List.append_assoc] using hx
    exact cleanWith_cons r c (cs ++ rest) hm
      (ih (fun x hx => hok x (by simp [hx])) hnf2)

theorem cleanWith_set (r : List Char) (s rest : List Char)
    (hall : ∀ c ∈ s, nameOkChar c = true) (hnf : noFoilCI s = true)
    (hrest : cleanWith r rest = true) :
    cleanWith r ('(' :: (s ++ ')' :: rest)) = true := by
  have h1 : cleanWith r (')' :: rest) = true :=
    cleanWith_cons r ')' rest
      (foilMatchAt_none_of_neverStarts false ')' _ (by decide)) hrest
  have h2 : cleanWith r (s ++ ')' :: rest) = true := by
    apply cleanWith_field r s (')' :: rest) hall hnf _ h1
    right
    exact ⟨')', rest ++ r, by simp, by decide⟩
  have hm : foilMatchAt false ('(' :: ((s ++ ')' :: rest) ++ r)) = none := by
    have hx := foilMatchAt_none_at_paren false s (rest ++ r) hnf
    simpa [List.append_assoc] using hx
  exact cleanWith_cons r '(' (s ++ ')' :: rest) hm h2

theorem foilSearch_marker (l : List Char) :
    ∀ b, foilSearchAux b (l ++ markerL) = true := by
  induction l with
  | nil =>
    intro b
    cases b <;> rfl
  | cons c cs ih =>
    intro b
    simp [foilSearchAux, ih (isWordChar c)]

theorem foilSearch_clean (l : List Char) (h : cleanWith [] l = true) :
    ∀ b, foilSearchAux b l = false := by
  induction l with
  | nil =>
    intro b
    rfl
  | cons c cs ih =>
    intro b
    have hb : cleanWith [] cs = true := by
      cases hx : cleanWith [] cs
      · simp only [cleanWith] at h
        rw [hx] at h
        simp at h
      · rfl
    have ha : foilMatchAt false (c :: cs) = none := by
      cases hx : foilMatchAt false (c :: (cs ++ ([] : List Char)))
      · simpa using hx
      · simp only [cleanWith] at h
        rw [hx] at h
        simp at h
    have ham := foilMatchAt_mono b ha
    simp [foilSearchAux, ham, ih hb]

theorem foilSub_clean (l : List Char) (h : cleanWith [] l = true) :
    ∀ b, foilSubAux b 0 l = l := by
  induction l with
  | nil =>
    intro b
    rfl
  | cons c cs ih =>
    intro b
    have hb : cleanWith [] cs = true := by
      cases hx : cleanWith [] cs
      · simp only [cleanWith] at h
        rw [hx] at h
        simp at h
      · rfl
    have ha : foilMatchAt false (c :: cs) = none := by
      cases hx : foilMatchAt false (c :: (cs ++ ([] : List Char)))
      · simpa using hx
      · simp only [cleanWith] at h
        rw [hx] at h
        simp at h
    have ham := foilMatchAt_mono b ha
    simp [foilSubAux, ham, ih hb]

theorem foilSub_marker (l : List Char) (h : cleanWith markerL l = true) :
    ∀ b, foilSubAux b 0 (l ++ markerL) = l ++ [' '] := by
  induction l with
  | nil =>
    intro b
    cases b <;> rfl
  | cons c cs ih =>
    intro b
    have hb : cleanWith markerL cs = true := by
      cases hx : cleanWith markerL cs
      · simp only [cleanWith] at h
        rw [hx] at h
        simp at h
      · rfl
    have ha : foilMatchAt false (c :: (cs ++ markerL)) = none := by
      cases hx : foilMatchAt false (c :: (cs ++ markerL))
      · rfl
      · simp only [cleanWith] at h
        rw [hx] at h
        simp at h
    have ham := foilMatchAt_mono b ha
    simp [foilSubAux, ham, ih hb]

theorem nameOk_of_alnum (c : Char) (h : isAlnum c = true) : nameOkChar c = true := by
  cases hx : nameOkChar c
  · exfalso
    have hd : c = '*' ∨ c = '(' ∨ c = '[' ∨ c = '<' ∨ c = '+' := by
      have hx2 := hx
      simp [nameOkChar] at hx2
      tauto
    rcases hd with rfl | rfl | rfl | rfl | rfl <;> exact absurd h (by decide)
  · rfl

theorem alnum_of_upper (c : Char) (h : isUpperAlnum c = true) : isAlnum c = true := by
  simp only [isUpperAlnum, Bool.or_eq_true, Bool.and_eq_true, decide_eq_true_eq] at h
  simp only [isAlnum, Bool.or_eq_true, Bool.and_eq_true, decide_eq_true_eq]
  omega

theorem nameOk_of_collChar (c : Char) (h : (isAlnum c || c = '-') = true) :
    nameOkChar c = true := by
  rcases (by simpa using h : isAlnum c = true ∨ c = '-') with h2 | rfl
  · exact nameOk_of_alnum c h2
  · decide

theorem alnum_not_ws (c : Char) (h : isAlnum c = true) : isPyWs c = false := by
  cases hx : isPyWs c
  · rfl
  · exfalso
    have hd : c = ' ' ∨ c = '\t' ∨ c = '\n' ∨ c = '\r' ∨ c = '\x0b' ∨ c = '\x0c' := by
      have hx2 := hx
      simp [isPyWs] at hx2
      tauto
    rcases hd with rfl | rfl | rfl | rfl | rfl | rfl <;> exact absurd h (by decide)

theorem collChar_not_ws (c : Char) (h : (isAlnum c || c = '-') = true) :
    isPyWs c = false := by
  rcases (by simpa using h : isAlnum c = true ∨ c = '-') with h2 | rfl
  · exact alnum_not_ws c h2
  · decide

theorem alnum_ne_paren (c : Char) (h : isAlnum c = true) : ¬(c = '(') := by
  intro hc
  subst hc
  exact absurd h (by decide)

theorem ucC_of_upper (c : Char) (h : isUpperAlnum c = true) : ucC c = c := by
  simp only [isUpperAlnum, Bool.or_eq_true, Bool.and_eq_true, decide_eq_true_eq] at h
  unfold ucC
  rw [if_neg]
  omega

theorem map_ucC_of_upper (s : List Char) (h : ∀ c ∈ s, isUpperAlnum c = true) :
    s.map ucC = s := by
  induction s with
  | nil => rfl
  | cons c cs ih =>
    simp [ucC_of_upper c (h c (by simp)), ih (fun x hx => h x (by simp [hx]))]

theorem digitCh_facts : ∀ k, k < 10 → isDigitCh (digitCh k) = true ∧
    isPyWs (digitCh k) = false ∧ neverStarts (digitCh k) = true ∧
    ¬(digitCh k = 'x') ∧ ¬(digitCh k = 'X') ∧ isQuoteCh (digitCh k) = false := by
  decide

theorem digitCh_skip_facts : ∀ k, k < 10 → ¬(lcC (digitCh k) = lcC '/') ∧
    ¬(lcC (digitCh k) = lcC '#') ∧ ¬(lcC (digitCh k) = lcC '-') ∧
    ¬(lcC (digitCh k) = lcC 's') ∧ ¬(lcC (digitCh k) = lcC 'c') ∧
    ¬(lcC (digitCh k) = lcC 'd') := by
  decide

theorem digits_roundtrip : ∀ q, q < 100 → 1 ≤ q → digitsToNat (qtyRepr q) = q := by
  decide

theorem isSkip_digit_head (k : Nat) (hk : k < 10) (rest : List Char) :
    isSkipLine (digitCh k :: rest) = false := by
  obtain ⟨_, hws, _, _, _, _⟩ := digitCh_facts k hk
  obtain ⟨s1, s2, s3, s4, s5, s6⟩ := digitCh_skip_facts k hk
  simp [isSkipLine, dropWsL, hws, startsWithCI, s1, s2, s3, s4, s5, s6]

theorem dropWsL_of_head (l : List Char)
    (h : ∀ c, l.head? = some c → isPyWs c = false) : dropWsL l = l := by
  cases l with
  | nil => rfl
  | cons c cs => simp [dropWsL, h c rfl]

theorem dropQuotesL_of_head (l : List Char)
    (h : ∀ c, l.head? = some c → isQuoteCh c = false) : dropQuotesL l = l := by
  cases l with
  | nil => rfl
  | cons c cs => simp [dropQuotesL, h c rfl]

theorem pyStripL_of_edges (l : List Char)
    (hh : ∀ c, l.head? = some c → isPyWs c = false)
    (hl : ∀ c, l.getLast? = some c → isPyWs c = false) : pyStripL l = l := by
  unfold pyStripL
  rw [dropWsL_of_head l hh]
  rw [dropWsL_of_head l.reverse (fun c hc => hl c (by rwa [List.head?_reverse] at hc))]
  exact List.reverse_reverse l

theorem stripQuotes_of_edges (l : List Char)
    (hh : ∀ c, l.head? = some c → isQuoteCh c = false)
    (hl : ∀ c, l.getLast? = some c → isQuoteCh c = false) : stripQuotes l = l := by
  unfold stripQuotes
  rw [dropQuotesL_of_head l hh]
  rw [dropQuotesL_of_head l.reverse
    (fun c hc => hl c (by rwa [List.head?_reverse] at hc))]
  exact List.reverse_reverse l

theorem pyStripL_trailing (l : List Char) (hne : l ≠ [])
    (hh : ∀ c, l.head? = some c → isPyWs c = false)
    (hl : ∀ c, l.getLast? = some c → isPyWs c = false) :
    pyStripL (l ++ [' ']) = l := by
  unfold pyStripL
  have h1 : dropWsL (l ++ [' ']) = l ++ [' '] := by
    apply dropWsL_of_head
    intro c hc
    cases l with
    | nil => exact absurd rfl hne
    | cons a t =>
      have hca : a = c := by simpa using hc
      exact hca ▸ hh a rfl
  rw [h1]
  have h2 : (l ++ [' ']).reverse = ' ' :: l.reverse := by simp
  rw [h2]
  have h3 : dropWsL (' ' :: l.reverse) = dropWsL l.reverse := by
    simp [dropWsL, isPyWs]
  rw [h3]
  rw [dropWsL_of_head l.reverse (fun c hc => hl c (by rwa [List.head?_reverse] at hc))]
  exact List.reverse_reverse l

theorem qtyMatch_render (q : Nat) (rest : List Char) (hq2 : q < 100)
    (hr : dropWsL rest = rest) :
    qtyMatch (qtyRepr q ++ ' ' :: rest) = some (qtyRepr q, rest) := by
  have hswd : isDigitCh ' ' = false := by decide
  have hsx : (' ' = 'x' ∨ ' ' = 'X') = False := by simp
  have hpw : isPyWs ' ' = true := by decide
  by_cases hq : q < 10
  · have hrepr : qtyRepr q = [digitCh q] := by simp [qtyRepr, hq]
    obtain ⟨hdig, _, _, hx1, hx2, _⟩ := digitCh_facts q hq
    rw [hrepr]
    have hspan : spanDigits (digitCh q :: ' ' :: rest) = ([digitCh q], ' ' :: rest) := by
      simp [spanDigits, hdig, hswd]
    have hqc : qtyCore (digitCh q :: ' ' :: rest) = some ([digitCh q], rest) := by
      simp only [qtyCore, hspan]
      simp [wsPlus, hpw, hr]
    simp [qtyMatch, hx1, hx2, hqc]
  · have hq10 : q / 10 < 10 := by omega
    have hq1m : q % 10 < 10 := by omega
    have hrepr : qtyRepr q = [digitCh (q / 10), digitCh (q % 10)] := by
      simp [qtyRepr, hq]
    obtain ⟨hdig1, _, _, hx1, hx2, _⟩ := digitCh_facts (q / 10) hq10
    obtain ⟨hdig2, _, _, _, _, _⟩ := digitCh_facts (q % 10) hq1m
    rw [hrepr]
    have hspan : spanDigits (digitCh (q / 10) :: digitCh (q % 10) :: ' ' :: rest) =
        ([digitCh (q / 10), digitCh (q % 10)], ' ' :: rest) := by
      simp [spanDigits, hdig1, hdig2, hswd]
    have hqc : qtyCore (digitCh (q / 10) :: digitCh (q % 10) :: ' ' :: rest) =
        some ([digitCh (q / 10), digitCh (q % 10)], rest) := by
      simp only [qtyCore, hspan]
      simp [wsPlus, hpw, hr]
    simp [qtyMatch, hx1, hx2, hqc]

theorem setMatchAt_none (c : Char) (cs : List Char) (hc : ¬(c = '(')) :
    setMatchAt (c :: cs) = none := by
  simp [setMatchAt, hc]

theorem setSearch_none (l : List Char) (h : ∀ c ∈ l, ¬(c = '(')) :
    setSearch l = none := by
  induction l with
  | nil => rfl
  | cons c cs ih =>
    simp [setSearch, setMatchAt_none c cs (h c (by simp)),
      ih (fun x hx => h x (by simp [hx]))]

theorem spanAlnum_exact (rest : List Char)
    (hr : ∀ d, rest.head? = some d → isAlnum d = false) :
    ∀ s : List Char, (∀ c ∈ s, isAlnum c = true) → spanAlnum (s ++ rest) = (s, rest) := by
  intro s
  induction s with
  | nil =>
    intro _
    cases rest with
    | nil => rfl
    | cons d ds => simp [spanAlnum, hr d rfl]
  | cons c cs ih =>
    intro hs
    simp [spanAlnum, hs c (by simp), ih (fun x hx => hs x (by simp [hx]))]

theorem spanCollTail_all (l : List Char)
    (h : ∀ c ∈ l, (isAlnum c || c = '-') = true) : spanCollTail l = l := by
  induction l with
  | nil => rfl
  | cons c cs ih =>
    simp [spanCollTail, h c (by simp), ih (fun x hx => h x (by simp [hx]))]

theorem collAfter_some (co : List Char) (hco : validColl co = true) :
    collAfter (' ' :: co) = some co := by
  cases co with
  | nil => simp [validColl] at hco
  | cons d ds =>
    have hparts : isAlnum d = true ∧ (∀ c ∈ d :: ds, (isAlnum c || c = '-') = true) := by
      have h2 := hco
      simp only [validColl, Bool.and_eq_true, List.all_eq_true] at h2
      exact ⟨h2.1.1, fun c hc => h2.1.2 c hc⟩
    have hws : isPyWs d = false := by
      rcases (by simpa using hparts.1 : isAlnum d = true) with h
      exact alnum_not_ws d h
    have hdrop : dropWsL (d :: ds) = d :: ds := by simp [dropWsL, hws]
    have htail : spanCollTail ds = ds :=
      spanCollTail_all ds (fun c hc => hparts.2 c (by simp [hc]))
    simp [collAfter, isPyWs, hdrop, hparts.1, htail]

theorem setMatchAt_render (s after : List Char)
    (h2 : 2 ≤ s.length) (h6 : s.length ≤ 6) (hall : ∀ c ∈ s, isAlnum c = true) :
    setMatchAt ('(' :: (s ++ ')' :: after)) = some (s, collAfter after) := by
  have hspan : spanAlnum (s ++ ')' :: after) = (s, ')' :: after) :=
    spanAlnum_exact (')' :: after) (fun d hd => by
      have hdd : ')' = d := by simpa using hd
      subst hdd
      decide) s hall
  simp [setMatchAt, hspan, h2, h6]

theorem setSearch_found (tail : List Char) (st : List Char) (co : Option (List Char))
    (hm : setMatchAt ('(' :: tail) = some (st, co)) :
    ∀ pre : List Char, (∀ c ∈ pre, ¬(c = '(')) →
      setSearch (pre ++ '(' :: tail) = some (pre, st, co) := by
  intro pre
  induction pre with
  | nil =>
    intro _
    simp [setSearch, hm]
  | cons c cs ih =>
    intro hpre
    simp [setSearch, setMatchAt_none c _ (hpre c (by simp)),
      ih (fun x hx => hpre x (by simp [hx]))]

theorem nameOk_ne_paren (c : Char) (h : nameOkChar c = true) : ¬(c = '(') := by
  intro hc
  subst hc
  exact absurd h (by decide)

theorem validName_parts (name : List Char) (h : validName name = true) :
    name ≠ [] ∧ (∀ c ∈ name, nameOkChar c = true) ∧ noFoilCI name = true ∧
    (∀ c, name.head? = some c → isPyWs c = false ∧ isQuoteCh c = false) ∧
    (∀ c, name.getLast? = some c → isPyWs c = false ∧ isQuoteCh c = false) := by
  simp only [validName, Bool.and_eq_true, List.all_eq_true] at h
  obtain ⟨⟨⟨⟨h1, h2⟩, h3⟩, h4⟩, h5⟩ := h
  refine ⟨?_, h2, h3, ?_, ?_⟩
  · intro hx
    subst hx
    simp at h1
  · intro c hc
    rw [hc] at h4
    simpa using h4
  · intro c hc
    rw [hc] at h5
    simpa using h5

theorem qtyRepr_cons (q : Nat) (hq2 : q < 100) :
    ∃ k t, k < 10 ∧ qtyRepr q = digitCh k :: t ∧
      (∀ c ∈ qtyRepr q, neverStarts c = true ∧ isPyWs c = false) := by
  by_cases hq : q < 10
  · refine ⟨q, [], hq, by simp [qtyRepr, hq], ?_⟩
    intro c hc
    have hcq : c = digitCh q := by simpa [qtyRepr, hq] using hc
    subst hcq
    obtain ⟨_, hws, hns, _, _, _⟩ := digitCh_facts q hq
    exact ⟨hns, hws⟩
  · refine ⟨q / 10, [digitCh (q % 10)], by omega, by simp [qtyRepr, hq], ?_⟩
    intro c hc
    have hcq : c = digitCh (q / 10) ∨ c = digitCh (q % 10) := by
      simpa [qtyRepr, hq] using hc
    obtain ⟨_, hws1, hns1, _, _, _⟩ := digitCh_facts (q / 10) (by omega)
    obtain ⟨_, hws2, hns2, _, _, _⟩ := digitCh_facts (q % 10) (by omega)
    rcases hcq with rfl | rfl
    · exact ⟨hns1, hws1⟩
    · exact ⟨hns2, hws2⟩

theorem getLast?_append_ne (l1 : List Char) :
    ∀ l2 : List Char, l2 ≠ [] → (l1 ++ l2).getLast? = l2.getLast? := by
  induction l1 with
  | nil =>
    intro l2 _
    rfl
  | cons c cs ih =>
    intro l2 h2
    cases hcs : cs ++ l2 with
    | nil => exact absurd (List.append_eq_nil.mp hcs).2 h2
    | cons d rest =>
      calc ((c :: cs) ++ l2).getLast? = (c :: d :: rest).getLast? := by
            rw [List.cons_append, hcs]
        _ = (d :: rest).getLast? := by simp
        _ = l2.getLast? := by rw [← hcs]; exact ih l2 h2

theorem parse_render_noset (q : Nat) (name : List Char) (foil : Bool)
    (hq1 : 1 ≤ q) (hq2 : q ≤ 99) (hn : validName name = true) :
    parse_line ((qtyRepr q ++ ' ' :: name) ++ (if foil then markerL else [])) =
      some ⟨q, name, none, none, foil, false,
        (qtyRepr q ++ ' ' :: name) ++ (if foil then markerL else [])⟩ := by
  obtain ⟨hne, hok, hnf, hhead, hlast⟩ := validName_parts name hn
  obtain ⟨k, t, hk, hqshape, hqchars⟩ := qtyRepr_cons q (by omega)
  obtain ⟨nc, nt, hnm⟩ : ∃ nc nt, name = nc :: nt := by
    cases name with
    | nil => exact absurd rfl hne
    | cons a b => exact ⟨a, b, rfl⟩
  have hAhead : (qtyRepr q ++ ' ' :: name).head? = some (digitCh k) := by
    rw [hqshape]
    rfl
  have hAheadWs : ∀ c, (qtyRepr q ++ ' ' :: name).head? = some c → isPyWs c = false := by
    intro c hc
    rw [hAhead] at hc
    injection hc with hc2
    subst hc2
    exact (hqchars (digitCh k) (by rw [hqshape]; exact List.mem_cons_self _ _)).2
  have hAlastName : (qtyRepr q ++ ' ' :: name).getLast? = name.getLast? := by
    rw [getLast?_append_ne (qtyRepr q) (' ' :: name) (by simp)]
    rw [hnm]
    simp
  have hAlastWs : ∀ c, (qtyRepr q ++ ' ' :: name).getLast? = some c → isPyWs c = false :=
    fun c hc => (hlast c (by rwa [hAlastName] at hc)).1
  have hAne : (qtyRepr q ++ ' ' :: name) ≠ [] := by
    rw [hqshape]
    simp
  have hdropName : dropWsL name = name :=
    dropWsL_of_head name (fun c hc => (hhead c hc).1)
  have hstripName : pyStripL name = name :=
    pyStripL_of_edges name (fun c hc => (hhead c hc).1) (fun c hc => (hlast c hc).1)
  have hquoteName : stripQuotes name = name :=
    stripQuotes_of_edges name (fun c hc => (hhead c hc).2) (fun c hc => (hlast c hc).2)
  have hqm : qtyMatch (qtyRepr q ++ ' ' :: name) = some (qtyRepr q, name) :=
    qtyMatch_render q name (by omega) hdropName
  have hss : setSearch name = none :=
    setSearch_none name (fun c hc => nameOk_ne_paren c (hok c hc))
  have hskipA : ∀ X : List Char, isSkipLine ((qtyRepr q ++ ' ' :: name) ++ X) = false := by
    intro X
    rw [hqshape]
    simp only [List.cons_append]
    exact isSkip_digit_head k hk _
  have hclean : ∀ r : List Char,
      (r = [] ∨ ∃ d t2, r = d :: t2 ∧ isFoilLetter d = false) →
      cleanWith r (qtyRepr q ++ ' ' :: name) = true := by
    intro r hr
    have hnmc : cleanWith r name = true := by
      have hx := cleanWith_field r name [] hok hnf hr rfl
      simpa using hx
    have hsafe : ∀ c ∈ qtyRepr q ++ [' '], neverStarts c = true := by
      intro c hc
      rcases List.mem_append.mp hc with h | h
      · exact (hqchars c h).1
      · have hcs : c = ' ' := by simpa using h
        subst hcs
        decide
    have hx := cleanWith_append_safe r (qtyRepr q ++ [' ']) name hsafe hnmc
    simpa [List.append_assoc] using hx
  have hb1 : decide (q < 1) = false := by
    simp
    omega
  have hb2 : decide (99 < q) = false := by
    simp
    omega
  have hdr := digits_roundtrip q (by omega) hq1
  cases foil with
  | true =>
    rw [show (if (true : Bool) then markerL else ([] : List Char)) = markerL from rfl]
    have hcl := hclean markerL (Or.inr ⟨' ', '*' :: 'F' :: '*' :: [], rfl, by decide⟩)
    have hsearch : foilSearch ((qtyRepr q ++ ' ' :: name) ++ markerL) = true :=
      foilSearch_marker _ false
    have hsub : foilSub ((qtyRepr q ++ ' ' :: name) ++ markerL) =
        (qtyRepr q ++ ' ' :: name) ++ [' '] :=
      foilSub_marker _ hcl false
    have hstrip1 : pyStripL ((qtyRepr q ++ ' ' :: name) ++ markerL) =
        (qtyRepr q ++ ' ' :: name) ++ markerL := by
      apply pyStripL_of_edges
      · intro c hc
        have hh2 : ((qtyRepr q ++ ' ' :: name) ++ markerL).head? = some (digitCh k) := by
          rw [hqshape]
          rfl
        rw [hh2] at hc
        injection hc with hc2
        subst hc2
        exact (hqchars (digitCh k) (by rw [hqshape]; exact List.mem_cons_self _ _)).2
      · intro c hc
        have hml : ((qtyRepr q ++ ' ' :: name) ++ markerL).getLast? = some '*' := by
          rw [getLast?_append_ne _ markerL (by decide)]
          rfl
        rw [hml] at hc
        injection hc with hc2
        subst hc2
        decide
    have hstrip2 : pyStripL ((qtyRepr q ++ ' ' :: name) ++ [' ']) =
        qtyRepr q ++ ' ' :: name :=
      pyStripL_trailing _ hAne hAheadWs hAlastWs
    have hne2 : ¬((qtyRepr q ++ ' ' :: name) ++ markerL = []) := by
      rw [hqshape]
      simp
    have hskipP : ¬(isSkipLine ((qtyRepr q ++ ' ' :: name) ++ markerL) = true) := by
      rw [hskipA markerL]
      simp
    simp only [parse_line]
    rw [hstrip1, if_neg hne2, if_neg hskipP, hsearch, hsub, hstrip2, hqm]
    simp [hdr, hb1, hb2, hss, hstripName, hquoteName, hne]
    omega
  | false =>
    rw [show (if (false : Bool) then markerL else ([] : List Char)) = [] from rfl]
    have hcl := hclean [] (Or.inl rfl)
    have hsearch : foilSearch ((qtyRepr q ++ ' ' :: name) ++ []) = false := by
      rw [List.append_nil]
      exact foilSearch_clean _ hcl false
    have hsub : foilSub ((qtyRepr q ++ ' ' :: name) ++ []) =
        qtyRepr q ++ ' ' :: name := by
      rw [List.append_nil]
      exact foilSub_clean _ hcl false
    have hstrip1 : pyStripL ((qtyRepr q ++ ' ' :: name) ++ []) =
        (qtyRepr q ++ ' ' :: name) ++ [] := by
      rw [List.append_nil]
      exact pyStripL_of_edges _ hAheadWs hAlastWs
    have hstrip2 : pyStripL (qtyRepr q ++ ' ' :: name) = qtyRepr q ++ ' ' :: name :=
      pyStripL_of_edges _ hAheadWs hAlastWs
    have hne2 : ¬((qtyRepr q ++ ' ' :: name) ++ [] = []) := by
      rw [hqshape]
      simp
    have hskipP : ¬(isSkipLine ((qtyRepr q ++ ' ' :: name) ++ []) = true) := by
      rw [hskipA ([] : List Char)]
      simp
    simp only [parse_line]
    rw [hstrip1, if_neg hne2, if_neg hskipP, hsearch, hsub, hstrip2, hqm]
    simp [hdr, hb1, hb2, hss, hstripName, hquoteName, hne]
    omega

theorem getLast?_cons_ne (c : Char) (l : List Char) (h : l ≠ []) :
    (c :: l).getLast? = l.getLast? := by
  cases l with
  | nil => exact absurd rfl h
  | cons a b => simp

theorem parse_render_set (q : Nat) (name s cop : List Char) (co : Option (List Char))
    (foil : Bool) (hq1 : 1 ≤ q) (hq2 : q ≤ 99) (hn : validName name = true)
    (h2 : 2 ≤ s.length) (h6 : s.length ≤ 6)
    (hsAl : ∀ c ∈ s, isUpperAlnum c = true) (hsNf : noFoilCI s = true)
    (hcoll : collAfter cop = co)
    (hcleanCop : ∀ r : List Char,
      (r = [] ∨ ∃ d t2, r = d :: t2 ∧ isFoilLetter d = false) → cleanWith r cop = true)
    (hlastCop : ∀ c, (')' :: cop).getLast? = some c → isPyWs c = false) :
    parse_line ((qtyRepr q ++ ' ' :: (name ++ ' ' :: '(' :: (s ++ ')' :: cop))) ++
        (if foil then markerL else [])) =
      some ⟨q, name, some s, co, foil, false,
        (qtyRepr q ++ ' ' :: (name ++ ' ' :: '(' :: (s ++ ')' :: cop))) ++
          (if foil then markerL else [])⟩ := by
  obtain ⟨hne, hok, hnf, hhead, hlast⟩ := validName_parts name hn
  obtain ⟨k, t, hk, hqshape, hqchars⟩ := qtyRepr_cons q (by omega)
  obtain ⟨nc, nt, hnm⟩ : ∃ nc nt, name = nc :: nt := by
    cases name with
    | nil => exact absurd rfl hne
    | cons a b => exact ⟨a, b, rfl⟩
  have hAheadWs : ∀ c,
      (qtyRepr q ++ ' ' :: (name ++ ' ' :: '(' :: (s ++ ')' :: cop))).head? = some c →
        isPyWs c = false := by
    intro c hc
    rw [show (qtyRepr q ++ ' ' :: (name ++ ' ' :: '(' :: (s ++ ')' :: cop))).head? =
        some (digitCh k) from by rw [hqshape]; rfl] at hc
    injection hc with hc2
    subst hc2
    exact (hqchars (digitCh k) (by rw [hqshape]; exact List.mem_cons_self _ _)).2
  have hAlastWs : ∀ c,
      (qtyRepr q ++ ' ' :: (name ++ ' ' :: '(' :: (s ++ ')' :: cop))).getLast? = some c →
        isPyWs c = false := by
    intro c hc
    rw [getLast?_append_ne _ _ (by simp)] at hc
    rw [getLast?_cons_ne _ _ (by simp [hnm])] at hc
    rw [getLast?_append_ne _ _ (by simp)] at hc
    rw [getLast?_cons_ne _ _ (by simp)] at hc
    rw [getLast?_cons_ne _ _ (by simp)] at hc
    rw [getLast?_append_ne _ _ (by simp)] at hc
    exact hlastCop c hc
  have hAne : (qtyRepr q ++ ' ' :: (name ++ ' ' :: '(' :: (s ++ ')' :: cop))) ≠ [] := by
    rw [hqshape]
    simp
  have hdropR : dropWsL (name ++ ' ' :: '(' :: (s ++ ')' :: cop)) =
      name ++ ' ' :: '(' :: (s ++ ')' :: cop) := by
    apply dropWsL_of_head
    intro c hc
    rw [show (name ++ ' ' :: '(' :: (s ++ ')' :: cop)).head? = some nc from by
      rw [hnm]; rfl] at hc
    injection hc with hc2
    subst hc2
    exact (hhead nc (by rw [hnm]; rfl)).1
  have hstripName : pyStripL name = name :=
    pyStripL_of_edges name (fun c hc => (hhead c hc).1) (fun c hc => (hlast c hc).1)
  have hquoteName : stripQuotes name = name :=
    stripQuotes_of_edges name (fun c hc => (hhead c hc).2) (fun c hc => (hlast c hc).2)
  have hpreStrip : pyStripL (name ++ [' ']) = name :=
    pyStripL_trailing name hne (fun c hc => (hhead c hc).1) (fun c hc => (hlast c hc).1)
  have hqm : qtyMatch (qtyRepr q ++ ' ' :: (name ++ ' ' :: '(' :: (s ++ ')' :: cop))) =
      some (qtyRepr q, name ++ ' ' :: '(' :: (s ++ ')' :: cop)) :=
    qtyMatch_render q _ (by omega) hdropR
  have hsmAt : setMatchAt ('(' :: (s ++ ')' :: cop)) = some (s, co) := by
    rw [setMatchAt_render s cop h2 h6 (fun c hc => alnum_of_upper c (hsAl c hc)), hcoll]
  have hpreOk : ∀ c ∈ name ++ [' '], ¬(c = '(') := by
    intro c hc
    rcases List.mem_append.mp hc with h | h
    · exact nameOk_ne_paren c (hok c h)
    · have hcs : c = ' ' := by simpa using h
      subst hcs
      decide
  have hssR : setSearch (name ++ ' ' :: '(' :: (s ++ ')' :: cop)) =
      some (name ++ [' '], s, co) := by
    rw [show name ++ ' ' :: '(' :: (s ++ ')' :: cop) =
        (name ++ [' ']) ++ '(' :: (s ++ ')' :: cop) from by simp]
    exact setSearch_found _ s co hsmAt (name ++ [' ']) hpreOk
  have hmap : s.map ucC = s := map_ucC_of_upper s hsAl
  have hskipA : ∀ X : List Char,
      isSkipLine ((qtyRepr q ++ ' ' :: (name ++ ' ' :: '(' :: (s ++ ')' :: cop))) ++ X) =
        false := by
    intro X
    rw [hqshape]
    simp only [List.cons_append]
    exact isSkip_digit_head k hk _
  have hclean : ∀ r : List Char,
      (r = [] ∨ ∃ d t2, r = d :: t2 ∧ isFoilLetter d = false) →
      cleanWith r (qtyRepr q ++ ' ' :: (name ++ ' ' :: '(' :: (s ++ ')' :: cop))) = true := by
    intro r hr
    have hcop := hcleanCop r hr
    have hset : cleanWith r ('(' :: (s ++ ')' :: cop)) = true :=
      cleanWith_set r s cop
        (fun c hc => nameOk_of_alnum c (alnum_of_upper c (hsAl c hc))) hsNf hcop
    have hsp : cleanWith r (' ' :: '(' :: (s ++ ')' :: cop)) = true :=
      cleanWith_cons r ' ' _ (foilMatchAt_none_of_neverStarts false ' ' _ (by decide)) hset
    have hnmc : cleanWith r (name ++ ' ' :: '(' :: (s ++ ')' :: cop)) = true := by
      apply cleanWith_field r name (' ' :: '(' :: (s ++ ')' :: cop)) hok hnf _ hsp
      right
      exact ⟨' ', ('(' :: (s ++ ')' :: cop)) ++ r, by simp, by decide⟩
    have hsafe : ∀ c ∈ qtyRepr q ++ [' '], neverStarts c = true := by
      intro c hc
      rcases List.mem_append.mp hc with h | h
      · exact (hqchars c h).1
      · have hcs : c = ' ' := by simpa using h
        subst hcs
        decide
    have hx := cleanWith_append_safe r (qtyRepr q ++ [' ']) _ hsafe hnmc
    simpa [List.append_assoc] using hx
  have hb1 : decide (q < 1) = false := by
    simp
    omega
  have hb2 : decide (99 < q) = false := by
    simp
    omega
  have hdr := digits_roundtrip q (by omega) hq1
  cases foil with
  | true =>
    rw [show (if (true : Bool) then markerL else ([] : List Char)) = markerL from rfl]
    have hcl := hclean markerL (Or.inr ⟨' ', '*' :: 'F' :: '*' :: [], rfl, by decide⟩)
    have hsearch : foilSearch
        ((qtyRepr q ++ ' ' :: (name ++ ' ' :: '(' :: (s ++ ')' :: cop))) ++ markerL) =
        true := foilSearch_marker _ false
    have hsub : foilSub
        ((qtyRepr q ++ ' ' :: (name ++ ' ' :: '(' :: (s ++ ')' :: cop))) ++ markerL) =
        (qtyRepr q ++ ' ' :: (name ++ ' ' :: '(' :: (s ++ ')' :: cop))) ++ [' '] :=
      foilSub_marker _ hcl false
    have hstrip1 : pyStripL
        ((qtyRepr q ++ ' ' :: (name ++ ' ' :: '(' :: (s ++ ')' :: cop))) ++ markerL) =
        (qtyRepr q ++ ' ' :: (name ++ ' ' :: '(' :: (s ++ ')' :: cop))) ++ markerL := by
      apply pyStripL_of_edges
      · intro c hc
        rw [show ((qtyRepr q ++ ' ' :: (name ++ ' ' :: '(' :: (s ++ ')' :: cop))) ++
            markerL).head? = some (digitCh k) from by rw [hqshape]; rfl] at hc
        injection hc with hc2
        subst hc2
        exact (hqchars (digitCh k) (by rw [hqshape]; exact List.mem_cons_self _ _)).2
      · intro c hc
        rw [getLast?_append_ne _ markerL (by decide)] at hc
        rw [show markerL.getLast? = some '*' from rfl] at hc
        injection hc with hc2
        subst hc2
        decide
    have hstrip2 : pyStripL
        ((qtyRepr q ++ ' ' :: (name ++ ' ' :: '(' :: (s ++ ')' :: cop))) ++ [' ']) =
        qtyRepr q ++ ' ' :: (name ++ ' ' :: '(' :: (s ++ ')' :: cop)) :=
      pyStripL_trailing _ hAne hAheadWs hAlastWs
    have hne2 : ¬((qtyRepr q ++ ' ' :: (name ++ ' ' :: '(' :: (s ++ ')' :: cop))) ++
        markerL = []) := by
      rw [hqshape]
      simp
    have hskipP : ¬(isSkipLine
        ((qtyRepr q ++ ' ' :: (name ++ ' ' :: '(' :: (s ++ ')' :: cop))) ++ markerL) =
        true) := by
      rw [hskipA markerL]
      simp
    simp only [parse_line]
    rw [hstrip1, if_neg hne2, if_neg hskipP, hsearch, hsub, hstrip2, hqm]
    simp [hdr, hb1, hb2, hssR, hpreStrip, hstripName, hquoteName, hne, hmap]
    omega
  | false =>
    rw [show (if (false : Bool) then markerL else ([] : List Char)) = [] from rfl]
    have hcl := hclean [] (Or.inl rfl)
    have hsearch : foilSearch
        ((qtyRepr q ++ ' ' :: (name ++ ' ' :: '(' :: (s ++ ')' :: cop))) ++ []) =
        false := by
      rw [List.append_nil]
      exact foilSearch_clean _ hcl false
    have hsub : foilSub
        ((qtyRepr q ++ ' ' :: (name ++ ' ' :: '(' :: (s ++ ')' :: cop))) ++ []) =
        qtyRepr q ++ ' ' :: (name ++ ' ' :: '(' :: (s ++ ')' :: cop)) := by
      rw [List.append_nil]
      exact foilSub_clean _ hcl false
    have hstrip1 : pyStripL
        ((qtyRepr q ++ ' ' :: (name ++ ' ' :: '(' :: (s ++ ')' :: cop))) ++ []) =
        (qtyRepr q ++ ' ' :: (name ++ ' ' :: '(' :: (s ++ ')' :: cop))) ++ [] := by
      rw [List.append_nil]
      exact pyStripL_of_edges _ hAheadWs hAlastWs
    have hstrip2 : pyStripL (qtyRepr q ++ ' ' :: (name ++ ' ' :: '(' :: (s ++ ')' :: cop))) =
        qtyRepr q ++ ' ' :: (name ++ ' ' :: '(' :: (s ++ ')' :: cop)) :=
      pyStripL_of_edges _ hAheadWs hAlastWs
    have hne2 : ¬((qtyRepr q ++ ' ' :: (name ++ ' ' :: '(' :: (s ++ ')' :: cop))) ++
        [] = []) := by
      rw [hqshape]
      simp
    have hskipP : ¬(isSkipLine
        ((qtyRepr q ++ ' ' :: (name ++ ' ' :: '(' :: (s ++ ')' :: cop))) ++ []) =
        true) := by
      rw [hskipA ([] : List Char)]
      simp
    simp only [parse_line]
    rw [hstrip1, if_neg hne2, if_neg hskipP, hsearch, hsub, hstrip2, hqm]
    simp [hdr, hb1, hb2, hssR, hpreStrip, hstripName, hquoteName, hne, hmap]
    omega

theorem mem_of_getLastCh : ∀ (l : List Char) (a : Char), l.getLast? = some a → a ∈ l := by
  intro l
  induction l with
  | nil =>
    intro a h
    simp at h
  | cons c cs ih =>
    intro a h
    cases cs with
    | nil =>
      have hca : c = a := by simpa using h
      subst hca
      exact List.mem_cons_self _ _
    | cons d dd =>
      have h2 : (d :: dd).getLast? = some a := by simpa using h
      exact List.mem_cons_of_mem c (ih a h2)

/-- **C9** (§8 tokenizer round trip): for any quantity in `[1, 99]`, any
valid name, optional upper-case set code, optional collector number (only
together with a set code) and foil flag, rendering the fields in the
canonical `"{qty} {name} ({SET}) {collector}{foil-marker}"` form and
parsing the result with `parse_line` yields exactly the same structured
fields back (with the rendered line as `raw` and the sideboard flag
`false`). -/
theorem parse_line_round_trip (q : Nat) (name : List Char) (st : Option (List Char))
    (co : Option (List Char)) (foil : Bool)
    (hq1 : 1 ≤ q) (hq2 : q ≤ 99)
    (hname : validName name = true)
    (hset : ∀ s, st = some s → validSet s = true)
    (hcoll : ∀ c0, co = some c0 → validColl c0 = true)
    (hdep : co.isSome → st.isSome) :
    parse_line (renderLine q name st co foil) =
      some ⟨q, name, st, co, foil, false, renderLine q name st co foil⟩ := by
  cases st with
  | none =>
    cases co with
    | some c0 => simp at hdep
    | none =>
      have hform : renderLine q name none none foil =
          (qtyRepr q ++ ' ' :: name) ++ (if foil then markerL else []) := by
        simp [renderLine]
      rw [hform]
      exact parse_render_noset q name foil hq1 hq2 hname
  | some s =>
    have hsv := hset s rfl
    have hsparts : 2 ≤ s.length ∧ s.length ≤ 6 ∧ (∀ c ∈ s, isUpperAlnum c = true) ∧
        noFoilCI s = true := by
      have h2 := hsv
      simp only [validSet, Bool.and_eq_true, List.all_eq_true, decide_eq_true_eq] at h2
      exact ⟨h2.1.1.1, h2.1.1.2, h2.1.2, h2.2⟩
    cases co with
    | none =>
      have hform : renderLine q name (some s) none foil =
          (qtyRepr q ++ ' ' :: (name ++ ' ' :: '(' :: (s ++ ')' :: ([] : List Char)))) ++
            (if foil then markerL else []) := by
        simp [renderLine]
      rw [hform]
      refine parse_render_set q name s [] none foil hq1 hq2 hname hsparts.1 hsparts.2.1
        hsparts.2.2.1 hsparts.2.2.2 rfl (fun r _ => rfl) ?_
      intro c hc
      have hc2 : ')' = c := by simpa using hc
      subst hc2
      decide
    | some c0 =>
      have hcv := hcoll c0 rfl
      obtain ⟨d, ds, hc0⟩ : ∃ d ds, c0 = d :: ds := by
        cases c0 with
        | nil => simp [validColl] at hcv
        | cons a b => exact ⟨a, b, rfl⟩
      have hcparts : (∀ c ∈ c0, (isAlnum c || c = '-') = true) ∧ noFoilCI c0 = true := by
        have h2 := hcv
        rw [hc0] at h2
        simp only [validColl, Bool.and_eq_true, List.all_eq_true] at h2
        rw [hc0]
        exact ⟨h2.1.2, h2.2⟩
      have hcoAfter : collAfter (' ' :: c0) = some c0 := collAfter_some c0 hcv
      have hcleanCop : ∀ r : List Char,
          (r = [] ∨ ∃ dd t2, r = dd :: t2 ∧ isFoilLetter dd = false) →
          cleanWith r (' ' :: c0) = true := by
        intro r hr
        have hc0c : cleanWith r c0 = true := by
          have hx := cleanWith_field r c0 []
            (fun c hcm => nameOk_of_collChar c (hcparts.1 c hcm)) hcparts.2 hr rfl
          simpa using hx
        exact cleanWith_cons r ' ' c0
          (foilMatchAt_none_of_neverStarts false ' ' _ (by decide)) hc0c
      have hlastCop : ∀ c, (')' :: ' ' :: c0).getLast? = some c → isPyWs c = false := by
        intro c hcL
        rw [getLast?_cons_ne _ _ (by simp)] at hcL
        rw [getLast?_cons_ne _ _ (by simp [hc0])] at hcL
        exact collChar_not_ws c (hcparts.1 c (mem_of_getLastCh c0 c hcL))
      have hform : renderLine q name (some s) (some c0) foil =
          (qtyRepr q ++ ' ' :: (name ++ ' ' :: '(' :: (s ++ ')' :: ' ' :: c0))) ++
            (if foil then markerL else []) := by
        simp [renderLine]
      rw [hform]
      exact parse_render_set q name s (' ' :: c0) (some c0) foil hq1 hq2 hname
        hsparts.1 hsparts.2.1 hsparts.2.2.1 hsparts.2.2.2 hcoAfter hcleanCop hlastCop

theorem parse_line_round_trip_witness :
    validName ('L' :: 'i' :: 'g' :: 'h' :: 't' :: 'n' :: 'i' :: 'n' :: 'g' :: ' ' ::
        'B' :: 'o' :: 'l' :: 't' :: []) = true ∧
    parse_line (renderLine 4
        ('L' :: 'i' :: 'g' :: 'h' :: 't' :: 'n' :: 'i' :: 'n' :: 'g' :: ' ' ::
          'B' :: 'o' :: 'l' :: 't' :: [])
        (some ('L' :: 'E' :: 'A' :: [])) (some ('1' :: [])) true) =
      some ⟨4,
        ('L' :: 'i' :: 'g' :: 'h' :: 't' :: 'n' :: 'i' :: 'n' :: 'g' :: ' ' ::
          'B' :: 'o' :: 'l' :: 't' :: []),
        some ('L' :: 'E' :: 'A' :: []), some ('1' :: []), true, false,
        renderLine 4
          ('L' :: 'i' :: 'g' :: 'h' :: 't' :: 'n' :: 'i' :: 'n' :: 'g' :: ' ' ::
            'B' :: 'o' :: 'l' :: 't' :: [])
          (some ('L' :: 'E' :: 'A' :: [])) (some ('1' :: [])) true⟩ :=
  ⟨by decide,
    parse_line_round_trip 4
      ('L' :: 'i' :: 'g' :: 'h' :: 't' :: 'n' :: 'i' :: 'n' :: 'g' :: ' ' ::
        'B' :: 'o' :: 'l' :: 't' :: [])
      (some ('L' :: 'E' :: 'A' :: [])) (some ('1' :: [])) true
      (by decide) (by decide) (by decide)
      (fun s hs => by
        injection hs with h
        subst h
        decide)
      (fun c0 hc => by
        injection hc with h
        subst h
        decide)
      (fun _ => rfl)⟩

end MagicDjinn
